import Mathlib

/-!
Verification of the FX pipeline's transformation stage
(`scripts/transform.py`), together with the audit-logging helper shared
with `scripts/load.py`.

Modelling conventions:
* Numeric values are exact rationals (`ℚ`).  The source computes in IEEE
  floats; the claims under study are about the real-number formulas the
  code implements, with decimal rounding, so the idealized rational
  semantics is the statement level.  `round(x, n)` is modelled as
  round-half-up on rationals; Python rounds ties to even on the binary
  float, and no statement below depends on a tie.
* `pandas` data frames become lists of records, `groupby` becomes
  "distinct keys in ascending order, each with the sub-list of its rows",
  and the Python dict of `calculate_cross_pairs` becomes a last-write-wins
  association lookup seeded with `{EUR: 1.0}`.
* Missing/non-numeric cells and the resulting NaN/string semantics of
  pandas are modelled separately (`PyVal` below) for the error-handling
  claims; the clean rational model is used for the numeric claims.
-/

set_option maxHeartbeats 1000000

/-- Calendar date as stored in the `rate_date` column. -/
structure Date where
  year : ℕ
  month : ℕ
  day : ℕ
deriving DecidableEq, Repr

/-- Chronological order on dates, as pandas `datetime64` compares them:
lexicographic on (year, month, day). -/
def dateLe (a b : Date) : Prop :=
  a.year < b.year ∨ (a.year = b.year ∧
    (a.month < b.month ∨ (a.month = b.month ∧ a.day ≤ b.day)))

instance : DecidableRel dateLe := by
  intro a b; unfold dateLe; infer_instance

instance : IsTotal Date dateLe :=
  ⟨by intro a b; unfold dateLe; omega⟩

instance : IsTrans Date dateLe :=
  ⟨by intro a b c; unfold dateLe; omega⟩

instance : IsAntisymm Date dateLe := by
  refine ⟨fun a b h h' => ?_⟩
  obtain ⟨ya, ma, da⟩ := a
  obtain ⟨yb, mb, db⟩ := b
  simp only [dateLe] at h h'
  simp only [Date.mk.injEq]
  omega

/-- A structurally sensible calendar date (month and day in range). -/
def ValidDate (d : Date) : Prop :=
  1 ≤ d.month ∧ d.month ≤ 12 ∧ 1 ≤ d.day ∧ d.day ≤ 31

instance (d : Date) : Decidable (ValidDate d) := by
  unfold ValidDate; infer_instance

/-- Python's `round(x, n)`: decimal rounding to `n` digits, on exact
rationals. -/
def roundTo (n : ℕ) (x : ℚ) : ℚ :=
  (round (x * 10 ^ n) : ℤ) / 10 ^ n

/-- One row of the extract output (`raw_fx_data.csv`):
`rate_date, base_currency = "EUR", quote_currency, exchange_rate`.
The constant base column is omitted. -/
structure RawRow where
  rate_date : Date
  quote_currency : String
  exchange_rate : ℚ
deriving DecidableEq, Repr

/-- One row of the cross-pair output (`transformed_fx_data.csv`). -/
structure CrossRow where
  rate_date : Date
  base_currency : String
  quote_currency : String
  exchange_rate : ℚ
deriving DecidableEq, Repr

/-- The universe `config.CURRENCIES`, the fixed currency universe. -/
def CURRENCIES : List String :=
  ["NOK", "EUR", "SEK", "PLN", "RON", "DKK", "CZK"]

/-- The per-date rate table of `calculate_cross_pairs`: the Python dict
starts at `{EUR: 1.0}` and each row of the date's group overwrites
`dict[row.quote_currency]`, so a lookup returns the last group row for
that currency, and the seed 1.0 for EUR when no row overrode it. -/
def rates_dict (g : List RawRow) (c : String) : Option ℚ :=
  ((g.filter (fun r => r.quote_currency = c)).getLast?).elim
    (if c = "EUR" then some 1 else none)
    (fun r => some r.exchange_rate)

/-- The inner double loop of `calculate_cross_pairs` for one date group:
for every ordered pair of distinct currencies of the universe that are
both in the rate table, emit `table[quote] / table[base]` rounded to 8
decimals. -/
def crossPairsForDate (d : Date) (g : List RawRow) : List CrossRow :=
  CURRENCIES.flatMap (fun base =>
    CURRENCIES.filterMap (fun quote =>
      if base ≠ quote then
        (rates_dict g base).bind (fun rb =>
          (rates_dict g quote).map (fun rq =>
            { rate_date := d, base_currency := base,
              quote_currency := quote,
              exchange_rate := roundTo 8 (rq / rb) }))
      else none))

/-- The distinct dates of the input, ascending: `df.groupby('rate_date')`
iterates one group per distinct key, keys sorted ascending. -/
def datesOf (df : List RawRow) : List Date :=
  ((df.map (·.rate_date)).dedup).insertionSort dateLe

/-- The rows of one date group, in input order. -/
def dateGroup (df : List RawRow) (d : Date) : List RawRow :=
  df.filter (fun r => r.rate_date = d)

/-- The function `calculate_cross_pairs`: concatenation of the per-date emissions over
the ascending distinct dates.  (When the total list is empty the source
additionally crashes on a statistics line; that path is covered by the
error-handling model further below.) -/
def calculate_cross_pairs (df : List RawRow) : List CrossRow :=
  (datesOf df).flatMap (fun d => crossPairsForDate d (dateGroup df d))

/-- The currencies of the universe that have a rate available on a date's
group: spec's "k = number of currencies with data that date", with EUR
always available through its synthetic 1.0 entry. -/
def availCurrencies (g : List RawRow) : List String :=
  CURRENCIES.filter (fun c => (rates_dict g c).isSome)

theorem rates_dict_eur_isSome (g : List RawRow) :
    (rates_dict g "EUR").isSome := by
  unfold rates_dict
  cases h : (g.filter (fun r => r.quote_currency = "EUR")).getLast? <;> simp

theorem rates_dict_eur (g : List RawRow)
    (h : ∀ r ∈ g, r.quote_currency ≠ "EUR") :
    rates_dict g "EUR" = some 1 := by
  unfold rates_dict
  have hnil : g.filter (fun r => r.quote_currency = "EUR") = [] := by
    simp only [List.filter_eq_nil_iff, decide_eq_true_eq]
    exact h
  simp [hnil]

theorem rates_dict_some_of_ne_eur {g : List RawRow} {c : String} {q : ℚ}
    (hc : c ≠ "EUR") (h : rates_dict g c = some q) :
    ∃ r ∈ g, r.quote_currency = c ∧ r.exchange_rate = q := by
  unfold rates_dict at h
  cases hl : (g.filter (fun r => r.quote_currency = c)).getLast? with
  | none => simp [hl, hc] at h
  | some r =>
    have hmem : r ∈ g.filter (fun r => r.quote_currency = c) :=
      List.mem_of_mem_getLast? (by simp [hl])
    simp only [hl, Option.elim_some, Option.some.injEq] at h
    rcases List.mem_filter.mp hmem with ⟨hg, hq⟩
    exact ⟨r, hg, by simpa using hq, h⟩

theorem rates_dict_none_iff {g : List RawRow} {c : String} (hc : c ≠ "EUR") :
    rates_dict g c = none ↔ ∀ r ∈ g, r.quote_currency ≠ c := by
  unfold rates_dict
  cases hl : (g.filter (fun r => r.quote_currency = c)).getLast? with
  | none =>
    have hnil : g.filter (fun r => r.quote_currency = c) = [] := by
      simpa using hl
    simp only [List.filter_eq_nil_iff, decide_eq_true_eq] at hnil
    simp only [Option.elim_none, if_neg hc]
    simpa using hnil
  | some r =>
    have hmem : r ∈ g.filter (fun r => r.quote_currency = c) :=
      List.mem_of_mem_getLast? (by simp [hl])
    rcases List.mem_filter.mp hmem with ⟨hg, hq⟩
    simp only [Option.elim_some]
    constructor
    · intro h; cases h
    · intro h
      exact absurd (by simpa using hq) (h r hg)

/-- If a currency is the quote of exactly one group row, the table entry is
that row's rate. -/
theorem rates_dict_unique {g : List RawRow} {c : String} {r : RawRow}
    (hr : r ∈ g) (hq : r.quote_currency = c)
    (huniq : ∀ s ∈ g, s.quote_currency = c → s = r) :
    rates_dict g c = some r.exchange_rate := by
  have hfil : ∀ s ∈ g.filter (fun x => x.quote_currency = c), s = r := by
    intro s hs
    rcases List.mem_filter.mp hs with ⟨hg, hqc⟩
    exact huniq s hg (by simpa using hqc)
  have hmem : r ∈ g.filter (fun x => x.quote_currency = c) :=
    List.mem_filter.mpr ⟨hr, by simpa using hq⟩
  have hne : g.filter (fun x => x.quote_currency = c) ≠ [] :=
    List.ne_nil_of_mem hmem
  unfold rates_dict
  rw [List.getLast?_eq_getLast _ hne]
  have := hfil _ (List.getLast_mem hne)
  simp [this]

theorem mem_crossPairsForDate {d : Date} {g : List RawRow} {row : CrossRow} :
    row ∈ crossPairsForDate d g ↔
      row.rate_date = d ∧ row.base_currency ∈ CURRENCIES ∧
      row.quote_currency ∈ CURRENCIES ∧
      row.base_currency ≠ row.quote_currency ∧
      ∃ rb rq, rates_dict g row.base_currency = some rb ∧
        rates_dict g row.quote_currency = some rq ∧
        row.exchange_rate = roundTo 8 (rq / rb) := by
  constructor
  · intro h
    simp only [crossPairsForDate, List.mem_flatMap, List.mem_filterMap] at h
    obtain ⟨base, hbase, quote, hquote, hrow⟩ := h
    by_cases hne : base = quote
    · simp [hne] at hrow
    · rw [if_pos hne] at hrow
      rcases Option.bind_eq_some.mp hrow with ⟨rb, hrb, hmap⟩
      rcases Option.map_eq_some'.mp hmap with ⟨rq, hrq, heq⟩
      subst heq
      exact ⟨rfl, hbase, hquote, hne, rb, rq, hrb, hrq, rfl⟩
  · rintro ⟨hd, hb, hq, hne, rb, rq, hrb, hrq, hr⟩
    simp only [crossPairsForDate, List.mem_flatMap, List.mem_filterMap]
    refine ⟨row.base_currency, hb, row.quote_currency, hq, ?_⟩
    rw [if_pos hne, hrb]
    simp only [Option.bind_some, hrq, Option.map_some, Option.some.injEq]
    obtain ⟨rd, b, q, e⟩ := row
    simp_all

theorem mem_datesOf {df : List RawRow} {d : Date} :
    d ∈ datesOf df ↔ ∃ r ∈ df, r.rate_date = d := by
  simp only [datesOf, List.mem_insertionSort, List.mem_dedup, List.mem_map]

/-- Membership characterization of the full cross-pair output. -/
theorem mem_calculate_cross_pairs {df : List RawRow} {row : CrossRow} :
    row ∈ calculate_cross_pairs df ↔
      (∃ r ∈ df, r.rate_date = row.rate_date) ∧
      row.base_currency ∈ CURRENCIES ∧ row.quote_currency ∈ CURRENCIES ∧
      row.base_currency ≠ row.quote_currency ∧
      ∃ rb rq,
        rates_dict (dateGroup df row.rate_date) row.base_currency = some rb ∧
        rates_dict (dateGroup df row.rate_date) row.quote_currency = some rq ∧
        row.exchange_rate = roundTo 8 (rq / rb) := by
  simp only [calculate_cross_pairs, List.mem_flatMap]
  constructor
  · rintro ⟨d, hd, hrow⟩
    rcases mem_crossPairsForDate.mp hrow with ⟨hdate, h⟩
    subst hdate
    exact ⟨mem_datesOf.mp hd, h⟩
  · rintro ⟨hd, h⟩
    exact ⟨row.rate_date, mem_datesOf.mpr hd,
      mem_crossPairsForDate.mpr ⟨rfl, h⟩⟩

theorem mem_dateGroup {df : List RawRow} {d : Date} {r : RawRow} :
    r ∈ dateGroup df d ↔ r ∈ df ∧ r.rate_date = d := by
  simp [dateGroup]

/-- C2: for every input date, the engine's per-date table maps EUR to exactly
1.0 and each other available currency to its EUR-relative raw rate; for every
ordered pair of distinct universe currencies present in the table it emits
`table[quote] / table[base]` rounded to 8 decimals; and a currency absent
from the table that date occurs in no emitted row of that date.  The
hypothesis is the RawRate invariant that EUR is never a quote currency in
raw data. -/
theorem cross_engine_per_date_table_spec (df : List RawRow)
    (hEUR : ∀ r ∈ df, r.quote_currency ≠ "EUR") (d : Date) :
    rates_dict (dateGroup df d) "EUR" = some 1 ∧
    (∀ c q, c ≠ "EUR" → rates_dict (dateGroup df d) c = some q →
      ∃ r ∈ df, r.rate_date = d ∧ r.quote_currency = c ∧ r.exchange_rate = q) ∧
    (∀ base quote rb rq, base ∈ CURRENCIES → quote ∈ CURRENCIES →
      base ≠ quote →
      rates_dict (dateGroup df d) base = some rb →
      rates_dict (dateGroup df d) quote = some rq →
      (⟨d, base, quote, roundTo 8 (rq / rb)⟩ : CrossRow) ∈
        calculate_cross_pairs df) ∧
    (∀ c, rates_dict (dateGroup df d) c = none →
      ∀ row ∈ calculate_cross_pairs df, row.rate_date = d →
        row.base_currency ≠ c ∧ row.quote_currency ≠ c) := by
  have hgroup : ∀ r ∈ dateGroup df d, r ∈ df ∧ r.rate_date = d := by
    intro r hr; exact mem_dateGroup.mp hr
  have hdate : ∀ c q, c ≠ "EUR" → rates_dict (dateGroup df d) c = some q →
      ∃ r ∈ df, r.rate_date = d ∧ r.quote_currency = c ∧ r.exchange_rate = q := by
    intro c q hc hq
    obtain ⟨r, hr, hrq, hre⟩ := rates_dict_some_of_ne_eur hc hq
    obtain ⟨hin, hd⟩ := hgroup r hr
    exact ⟨r, hin, hd, hrq, hre⟩
  refine ⟨rates_dict_eur _ (fun r hr => hEUR r (hgroup r hr).1), hdate, ?_, ?_⟩
  · intro base quote rb rq hb hq hne hrb hrq
    have hpresent : ∃ r ∈ df, r.rate_date = d := by
      by_cases hbe : base = "EUR"
      · have hqe : quote ≠ "EUR" := by rw [hbe] at hne; exact fun h => hne h.symm
        obtain ⟨r, hrdf, hrd, _, _⟩ := hdate quote rq hqe hrq
        exact ⟨r, hrdf, hrd⟩
      · obtain ⟨r, hrdf, hrd, _, _⟩ := hdate base rb hbe hrb
        exact ⟨r, hrdf, hrd⟩
    exact mem_calculate_cross_pairs.mpr
      ⟨hpresent, hb, hq, hne, rb, rq, hrb, hrq, rfl⟩
  · intro c hc row hrow hrowd
    rcases mem_calculate_cross_pairs.mp hrow with ⟨_, _, _, _, rb, rq, hrb, hrq, _⟩
    rw [hrowd] at hrb hrq
    constructor
    · intro hbc; rw [hbc] at hrb; rw [hc] at hrb; cases hrb
    · intro hqc; rw [hqc] at hrq; rw [hc] at hrq; cases hrq

/-- Witness for `cross_engine_per_date_table_spec` at a one-row input. -/
theorem cross_engine_per_date_table_spec_witness :
    (∀ r ∈ [(⟨⟨2024, 1, 1⟩, "NOK", 23/2⟩ : RawRow)], r.quote_currency ≠ "EUR") ∧
    (rates_dict (dateGroup [(⟨⟨2024, 1, 1⟩, "NOK", 23/2⟩ : RawRow)] ⟨2024, 1, 1⟩) "EUR" = some 1 ∧
    (∀ c q, c ≠ "EUR" →
      rates_dict (dateGroup [(⟨⟨2024, 1, 1⟩, "NOK", 23/2⟩ : RawRow)] ⟨2024, 1, 1⟩) c = some q →
      ∃ r ∈ [(⟨⟨2024, 1, 1⟩, "NOK", 23/2⟩ : RawRow)], r.rate_date = ⟨2024, 1, 1⟩ ∧
        r.quote_currency = c ∧ r.exchange_rate = q) ∧
    (∀ base quote rb rq, base ∈ CURRENCIES → quote ∈ CURRENCIES →
      base ≠ quote →
      rates_dict (dateGroup [(⟨⟨2024, 1, 1⟩, "NOK", 23/2⟩ : RawRow)] ⟨2024, 1, 1⟩) base = some rb →
      rates_dict (dateGroup [(⟨⟨2024, 1, 1⟩, "NOK", 23/2⟩ : RawRow)] ⟨2024, 1, 1⟩) quote = some rq →
      (⟨⟨2024, 1, 1⟩, base, quote, roundTo 8 (rq / rb)⟩ : CrossRow) ∈
        calculate_cross_pairs [(⟨⟨2024, 1, 1⟩, "NOK", 23/2⟩ : RawRow)]) ∧
    (∀ c, rates_dict (dateGroup [(⟨⟨2024, 1, 1⟩, "NOK", 23/2⟩ : RawRow)] ⟨2024, 1, 1⟩) c = none →
      ∀ row ∈ calculate_cross_pairs [(⟨⟨2024, 1, 1⟩, "NOK", 23/2⟩ : RawRow)],
        row.rate_date = ⟨2024, 1, 1⟩ →
        row.base_currency ≠ c ∧ row.quote_currency ≠ c)) :=
  ⟨by decide, cross_engine_per_date_table_spec _ (by decide) _⟩

/-- C7: round-trip — a raw EUR-based record for universe currency X on date D
yields the emitted row (D, EUR, X) carrying exactly the raw rate up to the
8-decimal rounding, and every emitted row keyed (D, EUR, X) carries that
value.  Hypotheses: the RawRate invariants (EUR never a raw quote; one
record per (date, quote_currency)). -/
theorem cross_round_trip_eur_rows (df : List RawRow) (r : RawRow)
    (hEUR : ∀ s ∈ df, s.quote_currency ≠ "EUR")
    (hr : r ∈ df) (hC : r.quote_currency ∈ CURRENCIES)
    (huniq : ∀ s ∈ df, s.rate_date = r.rate_date →
      s.quote_currency = r.quote_currency → s = r) :
    (⟨r.rate_date, "EUR", r.quote_currency, roundTo 8 r.exchange_rate⟩ : CrossRow)
        ∈ calculate_cross_pairs df ∧
    (∀ row ∈ calculate_cross_pairs df, row.rate_date = r.rate_date →
      row.base_currency = "EUR" → row.quote_currency = r.quote_currency →
      row.exchange_rate = roundTo 8 r.exchange_rate) := by
  have hqe : r.quote_currency ≠ "EUR" := hEUR r hr
  have hgr : r ∈ dateGroup df r.rate_date := mem_dateGroup.mpr ⟨hr, rfl⟩
  have hdict : rates_dict (dateGroup df r.rate_date) r.quote_currency =
      some r.exchange_rate := by
    refine rates_dict_unique hgr rfl ?_
    intro s hs hsq
    obtain ⟨hsdf, hsd⟩ := mem_dateGroup.mp hs
    exact huniq s hsdf hsd hsq
  have heur : rates_dict (dateGroup df r.rate_date) "EUR" = some 1 :=
    rates_dict_eur _ (fun s hs => hEUR s (mem_dateGroup.mp hs).1)
  constructor
  · refine mem_calculate_cross_pairs.mpr
      ⟨⟨r, hr, rfl⟩, by show "EUR" ∈ CURRENCIES; decide, hC,
        fun h => hqe h.symm, 1, r.exchange_rate, heur, hdict, ?_⟩
    show roundTo 8 r.exchange_rate = roundTo 8 (r.exchange_rate / 1)
    rw [div_one]
  · intro row hrow hrd hrb hrq
    rcases mem_calculate_cross_pairs.mp hrow with ⟨_, _, _, _, rb, rq, hrb', hrq', hre⟩
    rw [hrd, hrb] at hrb'
    rw [hrd, hrq] at hrq'
    rw [heur] at hrb'
    rw [hdict] at hrq'
    obtain rfl : (1 : ℚ) = rb := Option.some.inj hrb'
    obtain rfl : r.exchange_rate = rq := Option.some.inj hrq'
    rw [hre, div_one]

/-- Witness for `cross_round_trip_eur_rows`. -/
theorem cross_round_trip_eur_rows_witness :
    (∀ s ∈ [(⟨⟨2024, 1, 1⟩, "NOK", 23/2⟩ : RawRow)], s.quote_currency ≠ "EUR") ∧
    ((⟨⟨2024, 1, 1⟩, "EUR", "NOK", roundTo 8 (23/2)⟩ : CrossRow)
        ∈ calculate_cross_pairs [(⟨⟨2024, 1, 1⟩, "NOK", 23/2⟩ : RawRow)] ∧
    (∀ row ∈ calculate_cross_pairs [(⟨⟨2024, 1, 1⟩, "NOK", 23/2⟩ : RawRow)],
      row.rate_date = ⟨2024, 1, 1⟩ → row.base_currency = "EUR" →
      row.quote_currency = "NOK" → row.exchange_rate = roundTo 8 (23/2))) :=
  ⟨by decide,
    cross_round_trip_eur_rows [⟨⟨2024, 1, 1⟩, "NOK", 23/2⟩]
      ⟨⟨2024, 1, 1⟩, "NOK", 23/2⟩ (by decide) (by simp) (by decide)
      (fun s hs _ _ => by simpa using hs)⟩

theorem length_filter_ne {α : Type*} [DecidableEq α] {l : List α} {a : α}
    (hnd : l.Nodup) (ha : a ∈ l) :
    (l.filter (fun x => x ≠ a)).length = l.length - 1 := by
  induction l with
  | nil => cases ha
  | cons b l ih =>
    rcases List.mem_cons.mp ha with rfl | ha'
    · have hnotin : a ∉ l := (List.nodup_cons.mp hnd).1
      have hself : l.filter (fun x => x ≠ a) = l := by
        refine List.filter_eq_self.mpr (fun x hx => ?_)
        simp only [decide_eq_true_eq]
        exact fun h => hnotin (h ▸ hx)
      rw [List.filter_cons, if_neg (by simp), hself]
      simp
    · have hba : b ≠ a := by
        rintro rfl; exact (List.nodup_cons.mp hnd).1 ha'
      have hrec := ih (List.nodup_cons.mp hnd).2 ha'
      have hlen : 1 ≤ l.length := List.length_pos.mpr (List.ne_nil_of_mem ha')
      rw [List.filter_cons, if_pos (by simp [hba]), List.length_cons, hrec,
        List.length_cons]
      omega

theorem sum_map_if_bool {α : Type*} (p : α → Bool) (m : ℕ) :
    ∀ l : List α, (l.map (fun x => if p x then m else 0)).sum =
      (l.filter p).length * m
  | [] => by simp
  | a :: l => by
    by_cases h : p a <;>
      simp [List.filter_cons, h, sum_map_if_bool p m l, Nat.succ_mul,
        Nat.add_comm]

theorem length_flatMap_sum {α β : Type*} (f : α → List β) :
    ∀ l : List α, (l.flatMap f).length = (l.map (fun a => (f a).length)).sum
  | [] => rfl
  | a :: l => by simp [List.flatMap_cons, length_flatMap_sum f l]

theorem flatMap_eq_single {α β : Type*} (f : α → List β) (d : α) :
    ∀ l : List α, l.Nodup → d ∈ l → (∀ x ∈ l, x ≠ d → f x = []) →
      l.flatMap f = f d
  | [], _, h, _ => absurd h (by simp)
  | a :: l, hnd, hd, hnil => by
    rcases List.mem_cons.mp hd with rfl | hd'
    · have hfl : l.flatMap f = [] := by
        refine List.flatMap_eq_nil_iff.mpr (fun x hx => ?_)
        exact hnil x (List.mem_cons_of_mem _ hx)
          (fun h => (List.nodup_cons.mp hnd).1 (h ▸ hx))
      simp [List.flatMap_cons, hfl]
    · have ha : a ≠ d := fun h => (List.nodup_cons.mp hnd).1 (h ▸ hd')
      rw [List.flatMap_cons, hnil a (List.mem_cons_self _ _) ha,
        flatMap_eq_single f d l (List.nodup_cons.mp hnd).2 hd'
          (fun x hx hne => hnil x (List.mem_cons_of_mem _ hx) hne),
        List.nil_append]

theorem nodup_CURRENCIES : CURRENCIES.Nodup := by decide

theorem mem_availCurrencies {g : List RawRow} {c : String} :
    c ∈ availCurrencies g ↔ c ∈ CURRENCIES ∧ (rates_dict g c).isSome := by
  simp [availCurrencies]

/-- Row count of the inner pair loop: `k × (k − 1)` where `k` is the number
of available universe currencies of the date's group. -/
theorem length_crossPairsForDate (d : Date) (g : List RawRow) :
    (crossPairsForDate d g).length =
      (availCurrencies g).length * ((availCurrencies g).length - 1) := by
  unfold crossPairsForDate
  rw [length_flatMap_sum]
  have hnd : (availCurrencies g).Nodup :=
    List.Nodup.filter _ nodup_CURRENCIES
  have hmap : ∀ base ∈ CURRENCIES,
      (List.filterMap (fun quote =>
        if base ≠ quote then
          (rates_dict g base).bind (fun rb =>
            (rates_dict g quote).map (fun rq =>
              ({ rate_date := d, base_currency := base,
                 quote_currency := quote,
                 exchange_rate := roundTo 8 (rq / rb) } : CrossRow)))
        else none) CURRENCIES).length =
      (if (rates_dict g base).isSome then (availCurrencies g).length - 1
       else 0) := by
    intro base hbase
    rw [List.length_filterMap_eq_countP, List.countP_eq_length_filter]
    by_cases hb : (rates_dict g base).isSome
    · obtain ⟨rb, hrb⟩ := Option.isSome_iff_exists.mp hb
      have hpred : ∀ q ∈ CURRENCIES,
          ((if base ≠ q then
            (rates_dict g base).bind (fun rb =>
              (rates_dict g q).map (fun rq =>
                ({ rate_date := d, base_currency := base,
                   quote_currency := q,
                   exchange_rate := roundTo 8 (rq / rb) } : CrossRow)))
          else none).isSome)
          = (decide (q ≠ base) && (rates_dict g q).isSome) := by
        intro q _
        by_cases hbq : base = q
        · subst hbq
          simp
        · rw [if_pos hbq, hrb]
          simp only [Option.some_bind]
          cases hq : rates_dict g q
          · simp
          · simp [Ne.symm hbq]
      rw [List.filter_congr hpred, if_pos hb, ← List.filter_filter]
      have havail : List.filter (fun c => (rates_dict g c).isSome) CURRENCIES
          = availCurrencies g := rfl
      rw [havail]
      exact length_filter_ne hnd (mem_availCurrencies.mpr ⟨hbase, hb⟩)
    · have hnone : rates_dict g base = none :=
        Option.not_isSome_iff_eq_none.mp hb
      have hpred : ∀ q ∈ CURRENCIES,
          ((if base ≠ q then
            (rates_dict g base).bind (fun rb =>
              (rates_dict g q).map (fun rq =>
                ({ rate_date := d, base_currency := base,
                   quote_currency := q,
                   exchange_rate := roundTo 8 (rq / rb) } : CrossRow)))
          else none).isSome) = false := by
        intro q _
        by_cases hbq : base = q
        · subst hbq; simp
        · rw [if_pos hbq, hnone]; simp
      rw [List.filter_congr hpred, if_neg hb]
      simp
  rw [List.map_congr_left hmap, sum_map_if_bool]
  rfl

theorem nodup_datesOf (df : List RawRow) : (datesOf df).Nodup := by
  unfold datesOf
  exact ((List.perm_insertionSort dateLe _).nodup_iff).mpr (List.nodup_dedup _)

/-- The rows of the full output carrying a given present date are exactly the
per-date emission of that date's group. -/
theorem filter_date_calculate_cross_pairs (df : List RawRow) (d : Date)
    (hd : ∃ r ∈ df, r.rate_date = d) :
    (calculate_cross_pairs df).filter (fun row => row.rate_date = d) =
      crossPairsForDate d (dateGroup df d) := by
  unfold calculate_cross_pairs
  rw [List.filter_flatMap]
  have hself : (crossPairsForDate d (dateGroup df d)).filter
      (fun row => row.rate_date = d) = crossPairsForDate d (dateGroup df d) := by
    refine List.filter_eq_self.mpr (fun row hrow => ?_)
    simp only [decide_eq_true_eq]
    exact (mem_crossPairsForDate.mp hrow).1
  have hnil : ∀ d' ∈ datesOf df, d' ≠ d →
      (crossPairsForDate d' (dateGroup df d')).filter
        (fun row => row.rate_date = d) = [] := by
    intro d' _ hne
    refine List.filter_eq_nil_iff.mpr (fun row hrow => ?_)
    simp only [decide_eq_true_eq]
    rw [(mem_crossPairsForDate.mp hrow).1]
    exact hne
  rw [flatMap_eq_single _ d _ (nodup_datesOf df) (mem_datesOf.mpr hd) hnil,
    hself]

/-- C4: for a present date with `k` available universe currencies (EUR always
available through its synthetic entry), the emitted keys for that date are
exactly the ordered pairs of distinct available currencies — `k × (k − 1)`
rows, never a diagonal pair. -/
theorem cross_pairs_per_date_key_set (df : List RawRow) (d : Date)
    (hd : ∃ r ∈ df, r.rate_date = d) :
    ((calculate_cross_pairs df).filter (fun row => row.rate_date = d)).length =
      (availCurrencies (dateGroup df d)).length *
        ((availCurrencies (dateGroup df d)).length - 1) ∧
    "EUR" ∈ availCurrencies (dateGroup df d) ∧
    (∀ row ∈ calculate_cross_pairs df,
      row.base_currency ≠ row.quote_currency) ∧
    (∀ b q : String,
      (∃ row ∈ calculate_cross_pairs df, row.rate_date = d ∧
          row.base_currency = b ∧ row.quote_currency = q) ↔
        b ∈ availCurrencies (dateGroup df d) ∧
        q ∈ availCurrencies (dateGroup df d) ∧ b ≠ q) := by
  refine ⟨?_, ?_, ?_, ?_⟩
  · rw [filter_date_calculate_cross_pairs df d hd, length_crossPairsForDate]
  · exact mem_availCurrencies.mpr ⟨by decide, rates_dict_eur_isSome _⟩
  · intro row hrow
    exact (mem_calculate_cross_pairs.mp hrow).2.2.2.1
  · intro b q
    constructor
    · rintro ⟨row, hrow, hrd, rfl, rfl⟩
      rcases mem_calculate_cross_pairs.mp hrow with
        ⟨_, hb, hq, hne, rb, rq, hrb, hrq, _⟩
      rw [hrd] at hrb hrq
      exact ⟨mem_availCurrencies.mpr ⟨hb, by rw [hrb]; rfl⟩,
        mem_availCurrencies.mpr ⟨hq, by rw [hrq]; rfl⟩, hne⟩
    · rintro ⟨hb, hq, hne⟩
      rcases mem_availCurrencies.mp hb with ⟨hbC, hbS⟩
      rcases mem_availCurrencies.mp hq with ⟨hqC, hqS⟩
      obtain ⟨rb, hrb⟩ := Option.isSome_iff_exists.mp hbS
      obtain ⟨rq, hrq⟩ := Option.isSome_iff_exists.mp hqS
      exact ⟨⟨d, b, q, roundTo 8 (rq / rb)⟩,
        mem_calculate_cross_pairs.mpr ⟨hd, hbC, hqC, hne, rb, rq, hrb, hrq, rfl⟩,
        rfl, rfl, rfl⟩

/-- Witness for `cross_pairs_per_date_key_set` at a two-currency date. -/
theorem cross_pairs_per_date_key_set_witness :
    (∃ r ∈ [(⟨⟨2024, 1, 1⟩, "NOK", 23/2⟩ : RawRow)], r.rate_date = ⟨2024, 1, 1⟩) ∧
    (((calculate_cross_pairs [(⟨⟨2024, 1, 1⟩, "NOK", 23/2⟩ : RawRow)]).filter
        (fun row => row.rate_date = ⟨2024, 1, 1⟩)).length =
      (availCurrencies (dateGroup [(⟨⟨2024, 1, 1⟩, "NOK", 23/2⟩ : RawRow)] ⟨2024, 1, 1⟩)).length *
        ((availCurrencies (dateGroup [(⟨⟨2024, 1, 1⟩, "NOK", 23/2⟩ : RawRow)] ⟨2024, 1, 1⟩)).length - 1) ∧
    "EUR" ∈ availCurrencies (dateGroup [(⟨⟨2024, 1, 1⟩, "NOK", 23/2⟩ : RawRow)] ⟨2024, 1, 1⟩) ∧
    (∀ row ∈ calculate_cross_pairs [(⟨⟨2024, 1, 1⟩, "NOK", 23/2⟩ : RawRow)],
      row.base_currency ≠ row.quote_currency) ∧
    (∀ b q : String,
      (∃ row ∈ calculate_cross_pairs [(⟨⟨2024, 1, 1⟩, "NOK", 23/2⟩ : RawRow)],
          row.rate_date = ⟨2024, 1, 1⟩ ∧
          row.base_currency = b ∧ row.quote_currency = q) ↔
        b ∈ availCurrencies (dateGroup [(⟨⟨2024, 1, 1⟩, "NOK", 23/2⟩ : RawRow)] ⟨2024, 1, 1⟩) ∧
        q ∈ availCurrencies (dateGroup [(⟨⟨2024, 1, 1⟩, "NOK", 23/2⟩ : RawRow)] ⟨2024, 1, 1⟩) ∧
        b ≠ q)) :=
  ⟨⟨⟨⟨2024, 1, 1⟩, "NOK", 23/2⟩, by simp⟩,
    cross_pairs_per_date_key_set _ _ ⟨⟨⟨2024, 1, 1⟩, "NOK", 23/2⟩, by simp⟩⟩

theorem sorted_datesOf (df : List RawRow) : List.Sorted dateLe (datesOf df) :=
  List.sorted_insertionSort dateLe _

/-- The pair loop only consults the rate table at universe currencies. -/
theorem crossPairsForDate_congr {g g' : List RawRow} (d : Date)
    (h : ∀ c ∈ CURRENCIES, rates_dict g c = rates_dict g' c) :
    crossPairsForDate d g = crossPairsForDate d g' := by
  unfold crossPairsForDate
  refine List.flatMap_congr (fun base hbase => ?_)
  refine List.filterMap_congr (fun quote hquote => ?_)
  by_cases hne : base = quote
  · simp [hne]
  · rw [if_pos hne, if_pos hne, h base hbase, h quote hquote]

/-- A group none of whose rows quotes a universe currency emits nothing. -/
theorem crossPairsForDate_nil_of_out {g : List RawRow} (d : Date)
    (h : ∀ r ∈ g, r.quote_currency ∉ CURRENCIES) :
    crossPairsForDate d g = [] := by
  unfold crossPairsForDate
  refine List.flatMap_eq_nil_iff.mpr (fun base hbase => ?_)
  refine List.filterMap_eq_nil_iff.mpr (fun quote hquote => ?_)
  by_cases hne : base = quote
  · simp [hne]
  · rw [if_pos hne]
    by_cases hbe : base = "EUR"
    · have hqe : quote ≠ "EUR" := fun hq => hne (hbe.trans hq.symm)
      have hqn : rates_dict g quote = none :=
        (rates_dict_none_iff hqe).mpr
          (fun r hr hrq => h r hr (by rw [hrq]; exact hquote))
      cases hb : rates_dict g base <;> simp [hqn]
    · have hbn : rates_dict g base = none :=
        (rates_dict_none_iff hbe).mpr
          (fun r hr hrq => h r hr (by rw [hrq]; exact hbase))
      simp [hbn]

theorem dateGroup_filter_quote (df : List RawRow) (d : Date) (c : String) :
    (dateGroup df d).filter (fun r => r.quote_currency = c) =
      df.filter (fun r =>
        decide (r.quote_currency = c) && decide (r.rate_date = d)) := by
  simp [dateGroup, List.filter_filter]

theorem flatMap_eq_flatMap_filter {α β : Type*} [DecidableEq α]
    (f : α → List β) (e : α) (hf : f e = []) :
    ∀ l : List α, l.flatMap f = (l.filter (fun a => a ≠ e)).flatMap f
  | [] => rfl
  | a :: l => by
    by_cases ha : a = e
    · subst ha
      rw [List.flatMap_cons, hf, List.nil_append, List.filter_cons,
        if_neg (by simp)]
      exact flatMap_eq_flatMap_filter f a hf l
    · rw [List.flatMap_cons, List.filter_cons, if_pos (by simp [ha]),
        List.flatMap_cons, flatMap_eq_flatMap_filter f e hf l]

/-- C10: a raw row whose quote currency is outside the configured universe is
inert: no emitted row mentions its currency, and the output equals the output
on the same input with that row removed. -/
theorem out_of_universe_row_inert (l1 l2 : List RawRow) (x : RawRow)
    (hx : x.quote_currency ∉ CURRENCIES) :
    calculate_cross_pairs (l1 ++ x :: l2) = calculate_cross_pairs (l1 ++ l2) ∧
    (∀ row ∈ calculate_cross_pairs (l1 ++ x :: l2),
      row.base_currency ≠ x.quote_currency ∧
      row.quote_currency ≠ x.quote_currency) := by
  have hdict : ∀ d : Date, ∀ c ∈ CURRENCIES,
      rates_dict (dateGroup (l1 ++ x :: l2) d) c =
        rates_dict (dateGroup (l1 ++ l2) d) c := by
    intro d c hc
    have hxc : ¬ (x.quote_currency = c) := fun h => hx (h ▸ hc)
    have hfil : (l1 ++ x :: l2).filter (fun r =>
          decide (r.quote_currency = c) && decide (r.rate_date = d)) =
        (l1 ++ l2).filter (fun r =>
          decide (r.quote_currency = c) && decide (r.rate_date = d)) := by
      rw [List.filter_append, List.filter_append, List.filter_cons]
      simp [hxc]
    unfold rates_dict
    rw [dateGroup_filter_quote, dateGroup_filter_quote, hfil]
  have hgroups : ∀ d : Date,
      crossPairsForDate d (dateGroup (l1 ++ x :: l2) d) =
        crossPairsForDate d (dateGroup (l1 ++ l2) d) :=
    fun d => crossPairsForDate_congr d (fun c hc => hdict d c hc)
  constructor
  · unfold calculate_cross_pairs
    rw [List.flatMap_congr (fun d _ => hgroups d)]
    by_cases hpres : ∃ r ∈ l1 ++ l2, r.rate_date = x.rate_date
    · have hmemiff : ∀ a : Date,
          a ∈ datesOf (l1 ++ x :: l2) ↔ a ∈ datesOf (l1 ++ l2) := by
        intro a
        rw [mem_datesOf, mem_datesOf]
        constructor
        · rintro ⟨r, hr, hrd⟩
          rcases List.mem_append.mp hr with h1 | h2
          · exact ⟨r, List.mem_append_left _ h1, hrd⟩
          · rcases List.mem_cons.mp h2 with rfl | h2'
            · obtain ⟨s, hs, hsd⟩ := hpres
              exact ⟨s, hs, by rw [hsd, hrd]⟩
            · exact ⟨r, List.mem_append_right _ h2', hrd⟩
        · rintro ⟨r, hr, hrd⟩
          rcases List.mem_append.mp hr with h1 | h2
          · exact ⟨r, List.mem_append_left _ h1, hrd⟩
          · exact ⟨r, List.mem_append_right _ (List.mem_cons_of_mem _ h2), hrd⟩
      rw [List.eq_of_perm_of_sorted
        ((List.perm_ext_iff_of_nodup (nodup_datesOf _) (nodup_datesOf _)).mpr
          hmemiff)
        (sorted_datesOf _) (sorted_datesOf _)]
    · have hgx : dateGroup (l1 ++ l2) x.rate_date = [] := by
        refine List.filter_eq_nil_iff.mpr (fun r hr => ?_)
        simp only [decide_eq_true_eq]
        exact fun hrd => hpres ⟨r, hr, hrd⟩
      have hfx : crossPairsForDate x.rate_date
          (dateGroup (l1 ++ l2) x.rate_date) = [] := by
        rw [hgx]
        exact crossPairsForDate_nil_of_out _ (fun r hr => absurd hr
          (List.not_mem_nil r))
      rw [flatMap_eq_flatMap_filter _ x.rate_date hfx (datesOf (l1 ++ x :: l2))]
      have hlists : (datesOf (l1 ++ x :: l2)).filter
          (fun a => a ≠ x.rate_date) = datesOf (l1 ++ l2) := by
        refine List.eq_of_perm_of_sorted
          ((List.perm_ext_iff_of_nodup ((nodup_datesOf _).filter _)
            (nodup_datesOf _)).mpr ?_)
          ((sorted_datesOf _).filter _) (sorted_datesOf _)
        intro a
        rw [List.mem_filter]
        constructor
        · rintro ⟨ha, hane⟩
          simp only [decide_eq_true_eq] at hane
          obtain ⟨r, hr, hrd⟩ := mem_datesOf.mp ha
          rcases List.mem_append.mp hr with h1 | h2
          · exact mem_datesOf.mpr ⟨r, List.mem_append_left _ h1, hrd⟩
          · rcases List.mem_cons.mp h2 with rfl | h2'
            · exact absurd hrd.symm hane
            · exact mem_datesOf.mpr ⟨r, List.mem_append_right _ h2', hrd⟩
        · intro ha
          obtain ⟨r, hr, hrd⟩ := mem_datesOf.mp ha
          refine ⟨mem_datesOf.mpr ⟨r, ?_, hrd⟩, ?_⟩
          · rcases List.mem_append.mp hr with h1 | h2
            · exact List.mem_append_left _ h1
            · exact List.mem_append_right _ (List.mem_cons_of_mem _ h2)
          · simp only [decide_eq_true_eq]
            exact fun h => hpres ⟨r, hr, by rw [hrd, h]⟩
      rw [hlists]
  · intro row hrow
    rcases mem_calculate_cross_pairs.mp hrow with ⟨_, hb, hq, _, _⟩
    exact ⟨fun h => hx (h ▸ hb), fun h => hx (h ▸ hq)⟩

/-- Witness for `out_of_universe_row_inert`: a USD row (USD is outside the
universe) is dropped without affecting the NOK/EUR pairs. -/
theorem out_of_universe_row_inert_witness :
    ((⟨⟨2024, 1, 1⟩, "USD", 1⟩ : RawRow).quote_currency ∉ CURRENCIES) ∧
    (calculate_cross_pairs ([⟨⟨2024, 1, 1⟩, "NOK", 23/2⟩] ++
        (⟨⟨2024, 1, 1⟩, "USD", 1⟩ : RawRow) :: []) =
      calculate_cross_pairs ([⟨⟨2024, 1, 1⟩, "NOK", 23/2⟩] ++ []) ∧
    (∀ row ∈ calculate_cross_pairs ([⟨⟨2024, 1, 1⟩, "NOK", 23/2⟩] ++
        (⟨⟨2024, 1, 1⟩, "USD", 1⟩ : RawRow) :: []),
      row.base_currency ≠ "USD" ∧ row.quote_currency ≠ "USD")) :=
  ⟨by decide,
    out_of_universe_row_inert [⟨⟨2024, 1, 1⟩, "NOK", 23/2⟩] []
      ⟨⟨2024, 1, 1⟩, "USD", 1⟩ (by decide)⟩

/-- Decimal rounding moves a value by at most half an ulp. -/
theorem roundTo_sub_abs_le (n : ℕ) (x : ℚ) :
    |roundTo n x - x| ≤ 1 / (2 * 10 ^ n) := by
  have h := abs_sub_round (x * 10 ^ n)
  have h10 : (0 : ℚ) < 10 ^ n := by positivity
  rw [abs_sub_comm] at h
  have hrw : roundTo n x - x =
      ((round (x * 10 ^ n) : ℤ) - x * 10 ^ n) / 10 ^ n := by
    unfold roundTo
    field_simp
    ring
  rw [hrw, abs_div, abs_of_pos h10, div_le_div_iff₀ h10 (by positivity)]
  calc |(round (x * 10 ^ n) : ℚ) - x * 10 ^ n| * (2 * 10 ^ n)
      ≤ (1 / 2) * (2 * 10 ^ n) := by
        exact mul_le_mul_of_nonneg_right h (by positivity)
    _ = 1 * 10 ^ n := by ring

/-- After 8-decimal rounding, the product of a positive value and its exact
reciprocal deviates from 1 by at most `(u + v)·5e-9 + 2.5e-17`. -/
theorem reciprocal_roundTo_bound {u v : ℚ} (hu : 0 < u) (hv : 0 < v)
    (huv : u * v = 1) :
    |roundTo 8 u * roundTo 8 v - 1| ≤
      (u + v) / (2 * 10 ^ 8) + 1 / (4 * 10 ^ 16) := by
  have he1 := roundTo_sub_abs_le 8 u
  have he2 := roundTo_sub_abs_le 8 v
  set e1 := roundTo 8 u - u with he1d
  set e2 := roundTo 8 v - v with he2d
  have hexpand : roundTo 8 u * roundTo 8 v - 1 =
      u * e2 + v * e1 + e1 * e2 := by
    have hru : roundTo 8 u = u + e1 := by rw [he1d]; ring
    have hrv : roundTo 8 v = v + e2 := by rw [he2d]; ring
    rw [hru, hrv, ← huv]; ring
  rw [hexpand]
  have habs : |u * e2 + v * e1 + e1 * e2| ≤
      u * |e2| + v * |e1| + |e1| * |e2| := by
    calc |u * e2 + v * e1 + e1 * e2|
        ≤ |u * e2 + v * e1| + |e1 * e2| := abs_add _ _
      _ ≤ |u * e2| + |v * e1| + |e1 * e2| :=
          add_le_add_right (abs_add _ _) _
      _ = u * |e2| + v * |e1| + |e1| * |e2| := by
          rw [abs_mul, abs_mul, abs_mul, abs_of_pos hu, abs_of_pos hv]
  refine le_trans habs ?_
  have h1 : u * |e2| ≤ u * (1 / (2 * 10 ^ 8)) :=
    mul_le_mul_of_nonneg_left he2 hu.le
  have h2 : v * |e1| ≤ v * (1 / (2 * 10 ^ 8)) :=
    mul_le_mul_of_nonneg_left he1 hv.le
  have h3 : |e1| * |e2| ≤ (1 / (2 * 10 ^ 8)) * (1 / (2 * 10 ^ 8)) :=
    mul_le_mul he1 he2 (abs_nonneg _) (by positivity)
  have hsum : u * (1 / (2 * 10 ^ 8)) + v * (1 / (2 * 10 ^ 8)) +
      (1 / (2 * 10 ^ 8)) * (1 / (2 * 10 ^ 8)) =
      (u + v) / (2 * 10 ^ 8) + 1 / (4 * 10 ^ 16) := by ring
  linarith

/-- C6, refuted as stated: on the one-row input EUR/NOK = 7 the engine emits
the reciprocal pair (EUR,NOK) ↦ 7 and (NOK,EUR) ↦ 0.14285714, whose product
0.99999998 misses 1 by 2e-8, beyond the claimed 1e-8 tolerance. -/
theorem cross_reciprocal_tolerance_counterexample :
    (⟨⟨2024, 1, 1⟩, "EUR", "NOK", 7⟩ : CrossRow) ∈
      calculate_cross_pairs [⟨⟨2024, 1, 1⟩, "NOK", 7⟩] ∧
    (⟨⟨2024, 1, 1⟩, "NOK", "EUR", 14285714 / 10 ^ 8⟩ : CrossRow) ∈
      calculate_cross_pairs [⟨⟨2024, 1, 1⟩, "NOK", 7⟩] ∧
    ¬ (|(7 : ℚ) * (14285714 / 10 ^ 8) - 1| ≤ 1 / 10 ^ 8) := by
  have hd : ∃ r ∈ [(⟨⟨2024, 1, 1⟩, "NOK", 7⟩ : RawRow)],
      r.rate_date = ⟨2024, 1, 1⟩ := ⟨⟨⟨2024, 1, 1⟩, "NOK", 7⟩, by simp, rfl⟩
  have heur : rates_dict
      (dateGroup [(⟨⟨2024, 1, 1⟩, "NOK", 7⟩ : RawRow)] ⟨2024, 1, 1⟩) "EUR" =
      some 1 := rfl
  have hnok : rates_dict
      (dateGroup [(⟨⟨2024, 1, 1⟩, "NOK", 7⟩ : RawRow)] ⟨2024, 1, 1⟩) "NOK" =
      some 7 := rfl
  refine ⟨?_, ?_, ?_⟩
  · refine mem_calculate_cross_pairs.mpr
      ⟨hd, by decide, by decide, by decide, 1, 7, heur, hnok, ?_⟩
    show (7 : ℚ) = roundTo 8 (7 / 1)
    norm_num [roundTo, round_eq]
  · refine mem_calculate_cross_pairs.mpr
      ⟨hd, by decide, by decide, by decide, 7, 1, hnok, heur, ?_⟩
    show (14285714 / 10 ^ 8 : ℚ) = roundTo 8 (1 / 7)
    rw [roundTo]
    norm_num [round_eq]
  · intro h
    have hval : (7 : ℚ) * (14285714 / 10 ^ 8) - 1 = -(2 / 10 ^ 8) := by
      norm_num
    rw [hval, abs_neg, abs_of_nonneg (by norm_num : (0:ℚ) ≤ 2 / 10 ^ 8)] at h
    norm_num at h

/-- C6 amended: for any two emitted reciprocal rows of one date whose table
rates are positive, the product of the two rounded rates deviates from 1 by
at most `(u + v)/(2·10⁸) + 1/(4·10¹⁶)` where `u = tb/ta` and `v = ta/tb` are
the exact cross rates — not by the flat 1e-8 of the original claim. -/
theorem cross_reciprocal_product_bound (df : List RawRow) (d : Date)
    (a b : String) (ta tb : ℚ)
    (ha : a ∈ CURRENCIES) (hb : b ∈ CURRENCIES) (hne : a ≠ b)
    (hta : rates_dict (dateGroup df d) a = some ta)
    (htb : rates_dict (dateGroup df d) b = some tb)
    (hpa : 0 < ta) (hpb : 0 < tb)
    (hd : ∃ r ∈ df, r.rate_date = d) :
    (⟨d, a, b, roundTo 8 (tb / ta)⟩ : CrossRow) ∈ calculate_cross_pairs df ∧
    (⟨d, b, a, roundTo 8 (ta / tb)⟩ : CrossRow) ∈ calculate_cross_pairs df ∧
    |roundTo 8 (tb / ta) * roundTo 8 (ta / tb) - 1| ≤
      (tb / ta + ta / tb) / (2 * 10 ^ 8) + 1 / (4 * 10 ^ 16) := by
  refine ⟨mem_calculate_cross_pairs.mpr ⟨hd, ha, hb, hne, ta, tb, hta, htb, rfl⟩,
    mem_calculate_cross_pairs.mpr
      ⟨hd, hb, ha, fun h => hne h.symm, tb, ta, htb, hta, rfl⟩, ?_⟩
  exact reciprocal_roundTo_bound (by positivity) (by positivity)
    (by field_simp)

/-- Witness for `cross_reciprocal_product_bound`. -/
theorem cross_reciprocal_product_bound_witness :
    ("EUR" ∈ CURRENCIES ∧ "NOK" ∈ CURRENCIES ∧ "EUR" ≠ "NOK" ∧
      rates_dict (dateGroup [(⟨⟨2024, 1, 1⟩, "NOK", 7⟩ : RawRow)] ⟨2024, 1, 1⟩)
        "EUR" = some 1 ∧
      rates_dict (dateGroup [(⟨⟨2024, 1, 1⟩, "NOK", 7⟩ : RawRow)] ⟨2024, 1, 1⟩)
        "NOK" = some 7 ∧
      (0 : ℚ) < 1 ∧ (0 : ℚ) < 7 ∧
      (∃ r ∈ [(⟨⟨2024, 1, 1⟩, "NOK", 7⟩ : RawRow)], r.rate_date = ⟨2024, 1, 1⟩)) ∧
    ((⟨⟨2024, 1, 1⟩, "EUR", "NOK", roundTo 8 (7 / 1)⟩ : CrossRow) ∈
        calculate_cross_pairs [⟨⟨2024, 1, 1⟩, "NOK", 7⟩] ∧
      (⟨⟨2024, 1, 1⟩, "NOK", "EUR", roundTo 8 (1 / 7)⟩ : CrossRow) ∈
        calculate_cross_pairs [⟨⟨2024, 1, 1⟩, "NOK", 7⟩] ∧
      |roundTo 8 (7 / 1) * roundTo 8 (1 / 7) - 1| ≤
        (7 / 1 + 1 / 7) / (2 * 10 ^ 8) + 1 / (4 * 10 ^ 16)) :=
  ⟨⟨by decide, by decide, by decide, rfl, rfl, by norm_num, by norm_num,
      ⟨⟨⟨2024, 1, 1⟩, "NOK", 7⟩, by simp, rfl⟩⟩,
    cross_reciprocal_product_bound _ _ "EUR" "NOK" 1 7 (by decide) (by decide)
      (by decide) rfl rfl (by norm_num) (by norm_num)
      ⟨⟨⟨2024, 1, 1⟩, "NOK", 7⟩, by simp, rfl⟩⟩

/-- One row of the YTD metrics output (`ytd_metrics.csv`).  `ytd_var_raw`
keeps the source's intermediate `ytd_var` value (before `round`): the source
consults it for the None-vs-value decision (Python float truthiness) and,
through `rates.std()`, for the std-dev column, which is stated separately
over ℝ below. -/
structure YtdRow where
  rate_date : Date
  base_currency : String
  quote_currency : String
  ytd_avg_rate : ℚ
  ytd_min_rate : ℚ
  ytd_max_rate : ℚ
  ytd_first_rate : ℚ
  ytd_last_rate : ℚ
  ytd_days_count : ℕ
  ytd_var_raw : ℚ
  ytd_variance : Option ℚ
  ytd_change_pct : ℚ
deriving DecidableEq, Repr

/-- The numpy mean: sum over length. -/
def mean (l : List ℚ) : ℚ := l.sum / l.length

/-- The numpy variance with its default `ddof=0`: the population variance, the mean
of squared deviations. -/
def popVar (l : List ℚ) : ℚ :=
  ((l.map (fun x => (x - mean l) ^ 2)).sum) / l.length

/-- The numpy minimum of a nonempty array (0 as junk value on []). -/
def listMin : List ℚ → ℚ
  | [] => 0
  | x :: xs => xs.foldl min x

/-- The numpy maximum of a nonempty array (0 as junk value on []). -/
def listMax : List ℚ → ℚ
  | [] => 0
  | x :: xs => xs.foldl max x

/-- Row comparison used by `sort_values('rate_date')`. -/
def rowDateLe (r s : CrossRow) : Prop := dateLe r.rate_date s.rate_date

instance : DecidableRel rowDateLe := by
  intro r s; unfold rowDateLe; infer_instance

instance : IsTotal CrossRow rowDateLe :=
  ⟨fun r s => IsTotal.total (r := dateLe) r.rate_date s.rate_date⟩

instance : IsTrans CrossRow rowDateLe :=
  ⟨fun r s t hrs hst =>
    IsTrans.trans (r := dateLe) r.rate_date s.rate_date t.rate_date hrs hst⟩

/-- The sort `df.sort_values('rate_date')`.  The source's quicksort is unstable, but
every property proved below is either order-insensitive or assumes one
record per (pair, date), under which any date sort gives the same list. -/
def sortByDate (rows : List CrossRow) : List CrossRow :=
  rows.insertionSort rowDateLe

/-- Lexicographic order on (base, quote) keys, as pandas `groupby` sorts
group keys. -/
def pairLe (p q : String × String) : Prop :=
  p.1 < q.1 ∨ (p.1 = q.1 ∧ p.2 ≤ q.2)

instance : DecidableRel pairLe := by
  intro p q; unfold pairLe; infer_instance

instance : IsTotal (String × String) pairLe := by
  refine ⟨fun p q => ?_⟩
  unfold pairLe
  rcases lt_trichotomy p.1 q.1 with h | h | h
  · exact Or.inl (Or.inl h)
  · rcases le_total p.2 q.2 with h2 | h2
    · exact Or.inl (Or.inr ⟨h, h2⟩)
    · exact Or.inr (Or.inr ⟨h.symm, h2⟩)
  · exact Or.inr (Or.inl h)

instance : IsTrans (String × String) pairLe := by
  refine ⟨fun a b c hab hbc => ?_⟩
  unfold pairLe at *
  rcases hab with h1 | ⟨e1, h1⟩
  · rcases hbc with h2 | ⟨e2, h2⟩
    · exact Or.inl (h1.trans h2)
    · exact Or.inl (by rw [← e2]; exact h1)
  · rcases hbc with h2 | ⟨e2, h2⟩
    · exact Or.inl (by rw [e1]; exact h2)
    · exact Or.inr ⟨e1.trans e2, h1.trans h2⟩

/-- The grouping `df.groupby(['base_currency', 'quote_currency'])` on the date-sorted
frame: one group per distinct key, keys in ascending lexicographic order. -/
def pairKeysOf (df : List CrossRow) : List (String × String) :=
  (((sortByDate df).map
    (fun r => (r.base_currency, r.quote_currency))).dedup).insertionSort pairLe

/-- The rows of one pair group, in date-sorted frame order. -/
def groupForPair (df : List CrossRow) (key : String × String) :
    List CrossRow :=
  (sortByDate df).filter
    (fun r => r.base_currency = key.1 ∧ r.quote_currency = key.2)

/-- The window start `datetime(current_date.year, 1, 1)`. -/
def yearStart (d : Date) : Date := ⟨d.year, 1, 1⟩

/-- The YTD filter of the source: group rows with
`year_start ≤ rate_date ≤ current_date`. -/
def ytdWindow (g : List CrossRow) (d : Date) : List CrossRow :=
  g.filter (fun r => dateLe (yearStart d) r.rate_date ∧ dateLe r.rate_date d)

/-- One output record of `calculate_ytd_metrics`, computed from the rate
values of the (nonempty, as guarded in the source) YTD window, in window
order. -/
def mkYtdRow (base quote : String) (d : Date) (rates : List ℚ) : YtdRow :=
  let first := rates.headD 0
  let last := rates.getLastD 0
  let var := if 1 < rates.length then popVar rates else 0
  { rate_date := d
    base_currency := base
    quote_currency := quote
    ytd_avg_rate := roundTo 8 (mean rates)
    ytd_min_rate := roundTo 8 (listMin rates)
    ytd_max_rate := roundTo 8 (listMax rates)
    ytd_first_rate := roundTo 8 first
    ytd_last_rate := roundTo 8 last
    ytd_days_count := rates.length
    ytd_var_raw := var
    ytd_variance := if var = 0 then none else some (roundTo 8 var)
    ytd_change_pct :=
      roundTo 4 (if first ≠ 0 then (last - first) / first * 100 else 0) }

/-- The `ytd_std_dev` column.  The source stores
`round(rates.std(), 8) if rates.std() else None`; `rates.std()` is the
square root of the population variance (the retained `ytd_var_raw`), which
is zero exactly when the variance is.  Stated over ℝ since the square root
of a rational is generally irrational. -/
noncomputable def YtdRow.ytd_std_dev (r : YtdRow) : Option ℝ :=
  if r.ytd_var_raw = 0 then none
  else some (((round (Real.sqrt r.ytd_var_raw * 10 ^ 8) : ℤ) : ℝ) / 10 ^ 8)

/-- The per-group YTD loop: for each record of the date-sorted group, filter
the group to the record's YTD window and emit one metrics row when the
window is nonempty. -/
def ytdForGroup (base quote : String) (rows : List CrossRow) : List YtdRow :=
  (sortByDate rows).filterMap (fun row =>
    if 0 < (ytdWindow (sortByDate rows) row.rate_date).length then
      some (mkYtdRow base quote row.rate_date
        ((ytdWindow (sortByDate rows) row.rate_date).map (·.exchange_rate)))
    else none)

/-- The function `calculate_ytd_metrics`: group the date-sorted frame by (base, quote)
and concatenate the per-group YTD records. -/
def calculate_ytd_metrics (df : List CrossRow) : List YtdRow :=
  (pairKeysOf df).flatMap (fun key =>
    ytdForGroup key.1 key.2 (groupForPair df key))

/-- The rate values of the YTD window of pair (b, q) at date d, as drawn
from the full CrossRate input. -/
def windowRates (df : List CrossRow) (b q : String) (d : Date) : List ℚ :=
  (ytdWindow (sortByDate (groupForPair df (b, q))) d).map (·.exchange_rate)

theorem mem_sortByDate {rows : List CrossRow} {r : CrossRow} :
    r ∈ sortByDate rows ↔ r ∈ rows := by
  simp [sortByDate, List.mem_insertionSort]

theorem sorted_sortByDate (rows : List CrossRow) :
    List.Sorted rowDateLe (sortByDate rows) :=
  List.sorted_insertionSort rowDateLe rows

theorem mem_groupForPair {df : List CrossRow} {key : String × String}
    {r : CrossRow} :
    r ∈ groupForPair df key ↔
      r ∈ df ∧ r.base_currency = key.1 ∧ r.quote_currency = key.2 := by
  unfold groupForPair
  rw [List.mem_filter, mem_sortByDate]
  simp

theorem mem_ytdWindow {g : List CrossRow} {d : Date} {s : CrossRow} :
    s ∈ ytdWindow g d ↔
      s ∈ g ∧ dateLe (yearStart d) s.rate_date ∧ dateLe s.rate_date d := by
  unfold ytdWindow
  rw [List.mem_filter]
  simp

/-- A window element's date is in D's calendar year: the window never spans
into a prior (or later) year. -/
theorem year_eq_of_window_bounds {d e : Date}
    (h1 : dateLe (yearStart d) e) (h2 : dateLe e d) :
    e.year = d.year := by
  simp only [dateLe, yearStart] at h1 h2
  omega

theorem dateLe_refl (d : Date) : dateLe d d := by
  unfold dateLe; omega

theorem yearStart_dateLe {d : Date} (hv : ValidDate d) :
    dateLe (yearStart d) d := by
  unfold ValidDate at hv
  simp only [dateLe, yearStart, true_and]
  omega

theorem dateLe_antisymm {a b : Date} (h1 : dateLe a b) (h2 : dateLe b a) :
    a = b :=
  IsAntisymm.antisymm (r := dateLe) a b h1 h2

theorem yearStart_eq_self {d : Date} (hm : d.month = 1) (hd : d.day = 1) :
    yearStart d = d := by
  obtain ⟨y, m, dd⟩ := d
  simp only at hm hd
  simp [yearStart, hm, hd]

/-- In a date-sorted list whose element dates are all bounded by `x`'s date,
with `x` the unique holder of its date, the last element is `x`. -/
theorem getLast?_of_sorted_max_unique :
    ∀ {l : List CrossRow} {x : CrossRow}, List.Sorted rowDateLe l → x ∈ l →
      (∀ y ∈ l, dateLe y.rate_date x.rate_date) →
      (∀ y ∈ l, y.rate_date = x.rate_date → y = x) →
      l.getLast? = some x := by
  intro l
  induction l with
  | nil => intro x _ hx; cases hx
  | cons a t ih =>
    intro x hp hx hmax huniq
    cases t with
    | nil =>
      rcases List.mem_singleton.mp hx with rfl
      rfl
    | cons b t' =>
      have hxt : x ∈ b :: t' := by
        rcases List.mem_cons.mp hx with rfl | hxt'
        · have hab : dateLe x.rate_date b.rate_date :=
            (List.pairwise_cons.mp hp).1 b (List.mem_cons_self _ _)
          have hba : dateLe b.rate_date x.rate_date :=
            hmax b (List.mem_cons_of_mem _ (List.mem_cons_self _ _))
          have : b = x :=
            huniq b (List.mem_cons_of_mem _ (List.mem_cons_self _ _))
              (dateLe_antisymm hba hab)
          rw [← this]
          exact List.mem_cons_self _ _
        · exact hxt'
      have := ih (List.Sorted.of_cons hp) hxt
        (fun y hy => hmax y (List.mem_cons_of_mem _ hy))
        (fun y hy hyd => huniq y (List.mem_cons_of_mem _ hy) hyd)
      rw [List.getLast?_cons_cons]
      exact this

theorem head?_of_all_eq {l : List CrossRow} {x : CrossRow}
    (hne : x ∈ l) (hall : ∀ y ∈ l, y = x) : l.head? = some x := by
  cases l with
  | nil => cases hne
  | cons a t => rw [List.head?_cons, hall a (List.mem_cons_self _ _)]

theorem mem_ytdForGroup {base quote : String} {rows : List CrossRow}
    {R : YtdRow} :
    R ∈ ytdForGroup base quote rows ↔
      ∃ row ∈ sortByDate rows,
        0 < (ytdWindow (sortByDate rows) row.rate_date).length ∧
        R = mkYtdRow base quote row.rate_date
          ((ytdWindow (sortByDate rows) row.rate_date).map
            (·.exchange_rate)) := by
  unfold ytdForGroup
  rw [List.mem_filterMap]
  constructor
  · rintro ⟨row, hrow, hsome⟩
    by_cases hw : 0 < (ytdWindow (sortByDate rows) row.rate_date).length
    · rw [if_pos hw, Option.some.injEq] at hsome
      exact ⟨row, hrow, hw, hsome.symm⟩
    · rw [if_neg hw] at hsome; cases hsome
  · rintro ⟨row, hrow, hw, hR⟩
    exact ⟨row, hrow, by rw [if_pos hw, hR]⟩

theorem mem_calculate_ytd_metrics {df : List CrossRow} {R : YtdRow} :
    R ∈ calculate_ytd_metrics df ↔
      ∃ key ∈ pairKeysOf df,
        R ∈ ytdForGroup key.1 key.2 (groupForPair df key) := by
  unfold calculate_ytd_metrics
  rw [List.mem_flatMap]

/-- Field projections of a constructed YTD record. -/
theorem mkYtdRow_fields (base quote : String) (d : Date) (rates : List ℚ) :
    (mkYtdRow base quote d rates).rate_date = d ∧
    (mkYtdRow base quote d rates).base_currency = base ∧
    (mkYtdRow base quote d rates).quote_currency = quote ∧
    (mkYtdRow base quote d rates).ytd_days_count = rates.length ∧
    (mkYtdRow base quote d rates).ytd_first_rate = roundTo 8 (rates.headD 0) ∧
    (mkYtdRow base quote d rates).ytd_last_rate =
      roundTo 8 (rates.getLastD 0) ∧
    (mkYtdRow base quote d rates).ytd_var_raw =
      (if 1 < rates.length then popVar rates else 0) ∧
    (mkYtdRow base quote d rates).ytd_variance =
      (if (if 1 < rates.length then popVar rates else 0) = 0 then none
       else some (roundTo 8 (if 1 < rates.length then popVar rates else 0))) ∧
    (mkYtdRow base quote d rates).ytd_change_pct =
      roundTo 4 (if rates.headD 0 ≠ 0 then
        (rates.getLastD 0 - rates.headD 0) / rates.headD 0 * 100 else 0) := by
  unfold mkYtdRow
  exact ⟨rfl, rfl, rfl, rfl, rfl, rfl, rfl, rfl, rfl⟩

/-- Every emitted YTD record is the record computed from the YTD window of
its own (pair, date), and that (pair, date) occurs in the input. -/
theorem ytd_record_spec {df : List CrossRow} {R : YtdRow}
    (h : R ∈ calculate_ytd_metrics df) :
    (∃ row ∈ df, row.base_currency = R.base_currency ∧
      row.quote_currency = R.quote_currency ∧ row.rate_date = R.rate_date) ∧
    R = mkYtdRow R.base_currency R.quote_currency R.rate_date
      (windowRates df R.base_currency R.quote_currency R.rate_date) := by
  rcases mem_calculate_ytd_metrics.mp h with ⟨key, hkey, hR⟩
  rcases mem_ytdForGroup.mp hR with ⟨row, hrow, hw, hReq⟩
  have hrowg : row ∈ groupForPair df key := mem_sortByDate.mp hrow
  rcases mem_groupForPair.mp hrowg with ⟨hrdf, hrb, hrq⟩
  have hfields := mkYtdRow_fields key.1 key.2 row.rate_date
    ((ytdWindow (sortByDate (groupForPair df key)) row.rate_date).map
      (·.exchange_rate))
  have hb : R.base_currency = key.1 := by rw [hReq]; exact hfields.2.1
  have hq : R.quote_currency = key.2 := by rw [hReq]; exact hfields.2.2.1
  have hd : R.rate_date = row.rate_date := by rw [hReq]; exact hfields.1
  constructor
  · exact ⟨row, hrdf, by rw [hb, hrb], by rw [hq, hrq], hd.symm⟩
  · rw [hb, hq, hd]
    exact hReq

/-- C3: each YTD record of pair (b, q) at date D is computed over exactly
the pair's records with date in [Jan 1 of D's year, D], in ascending date
order; the window never leaves D's calendar year, `ytd_last_rate` is D's own
(rounded) cross rate, and on a January-1 record `ytd_first_rate` is that
record's own (rounded) cross rate.  Hypotheses: structurally valid dates and
one record per (pair, date) — the upstream CrossRate guarantees. -/
theorem ytd_window_year_scope (df : List CrossRow)
    (hvalid : ∀ r ∈ df, ValidDate r.rate_date)
    (huniq : ∀ r ∈ df, ∀ s ∈ df, r.base_currency = s.base_currency →
      r.quote_currency = s.quote_currency → r.rate_date = s.rate_date →
      r = s) :
    ∀ R ∈ calculate_ytd_metrics df,
      (∀ s, s ∈ ytdWindow (sortByDate (groupForPair df
            (R.base_currency, R.quote_currency))) R.rate_date ↔
        (s ∈ df ∧ s.base_currency = R.base_currency ∧
         s.quote_currency = R.quote_currency ∧
         dateLe (yearStart R.rate_date) s.rate_date ∧
         dateLe s.rate_date R.rate_date)) ∧
      List.Sorted rowDateLe (ytdWindow (sortByDate (groupForPair df
        (R.base_currency, R.quote_currency))) R.rate_date) ∧
      (∀ s ∈ ytdWindow (sortByDate (groupForPair df
          (R.base_currency, R.quote_currency))) R.rate_date,
        s.rate_date.year = R.rate_date.year) ∧
      (∃ row ∈ df, row.base_currency = R.base_currency ∧
        row.quote_currency = R.quote_currency ∧
        row.rate_date = R.rate_date ∧
        R.ytd_last_rate = roundTo 8 row.exchange_rate ∧
        (R.rate_date.month = 1 → R.rate_date.day = 1 →
          R.ytd_first_rate = roundTo 8 row.exchange_rate)) := by
  intro R hR
  rcases mem_calculate_ytd_metrics.mp hR with ⟨key, hkey, hRg⟩
  rcases mem_ytdForGroup.mp hRg with ⟨row, hrow, hwlen, hReq⟩
  obtain ⟨hrdf, hrb, hrq⟩ := mem_groupForPair.mp (mem_sortByDate.mp hrow)
  have hfields := mkYtdRow_fields key.1 key.2 row.rate_date
    ((ytdWindow (sortByDate (groupForPair df key)) row.rate_date).map
      (·.exchange_rate))
  have hb : R.base_currency = key.1 := by rw [hReq]; exact hfields.2.1
  have hq : R.quote_currency = key.2 := by rw [hReq]; exact hfields.2.2.1
  have hd : R.rate_date = row.rate_date := by rw [hReq]; exact hfields.1
  rw [hb, hq, hd]
  have hgroup_eta : groupForPair df (key.1, key.2) = groupForPair df key := rfl
  rw [hgroup_eta]
  have hxmem : row ∈ ytdWindow (sortByDate (groupForPair df key))
      row.rate_date :=
    mem_ytdWindow.mpr ⟨hrow, yearStart_dateLe (hvalid row hrdf),
      dateLe_refl _⟩
  have hmax : ∀ y ∈ ytdWindow (sortByDate (groupForPair df key))
      row.rate_date, dateLe y.rate_date row.rate_date :=
    fun y hy => (mem_ytdWindow.mp hy).2.2
  have huniqw : ∀ y ∈ ytdWindow (sortByDate (groupForPair df key))
      row.rate_date, y.rate_date = row.rate_date → y = row := by
    intro y hy hyd
    obtain ⟨hydf, hyb, hyq⟩ := mem_groupForPair.mp
      (mem_sortByDate.mp (mem_ytdWindow.mp hy).1)
    exact huniq y hydf row hrdf (by rw [hyb, hrb]) (by rw [hyq, hrq]) hyd
  have hsortw : List.Sorted rowDateLe
      (ytdWindow (sortByDate (groupForPair df key)) row.rate_date) :=
    (sorted_sortByDate _).filter _
  refine ⟨?_, hsortw, ?_, ?_⟩
  · intro s
    rw [mem_ytdWindow, mem_sortByDate, mem_groupForPair]
    tauto
  · intro s hs
    exact year_eq_of_window_bounds (mem_ytdWindow.mp hs).2.1
      (mem_ytdWindow.mp hs).2.2
  · refine ⟨row, hrdf, hrb, hrq, rfl, ?_, ?_⟩
    · have hlastw : (ytdWindow (sortByDate (groupForPair df key))
          row.rate_date).getLast? = some row :=
        getLast?_of_sorted_max_unique hsortw hxmem hmax huniqw
      rw [hReq]
      rw [hfields.2.2.2.2.2.1]
      rw [List.getLastD_eq_getLast?, List.getLast?_map, hlastw]
      rfl
    · intro hm hd1
      have hys : yearStart row.rate_date = row.rate_date :=
        yearStart_eq_self hm hd1
      have hall : ∀ y ∈ ytdWindow (sortByDate (groupForPair df key))
          row.rate_date, y = row := by
        intro y hy
        rcases mem_ytdWindow.mp hy with ⟨_, h1, h2⟩
        rw [hys] at h1
        exact huniqw y hy (dateLe_antisymm h2 h1)
      have hheadw : (ytdWindow (sortByDate (groupForPair df key))
          row.rate_date).head? = some row :=
        head?_of_all_eq hxmem hall
      rw [hReq]
      rw [hfields.2.2.2.2.1]
      rw [List.headD_eq_head?_getD, List.head?_map, hheadw]
      rfl

/-- Witness for `ytd_window_year_scope` at a one-record input. -/
theorem ytd_window_year_scope_witness :
    ((∀ r ∈ [(⟨⟨2024, 1, 1⟩, "EUR", "NOK", 23/2⟩ : CrossRow)],
        ValidDate r.rate_date) ∧
     (∀ r ∈ [(⟨⟨2024, 1, 1⟩, "EUR", "NOK", 23/2⟩ : CrossRow)],
        ∀ s ∈ [(⟨⟨2024, 1, 1⟩, "EUR", "NOK", 23/2⟩ : CrossRow)],
        r.base_currency = s.base_currency →
        r.quote_currency = s.quote_currency → r.rate_date = s.rate_date →
        r = s) ∧
     mkYtdRow "EUR" "NOK" ⟨2024, 1, 1⟩ [23/2] ∈
       calculate_ytd_metrics [⟨⟨2024, 1, 1⟩, "EUR", "NOK", 23/2⟩]) ∧
    (∃ row ∈ [(⟨⟨2024, 1, 1⟩, "EUR", "NOK", 23/2⟩ : CrossRow)],
      row.base_currency =
        (mkYtdRow "EUR" "NOK" ⟨2024, 1, 1⟩ [23/2]).base_currency ∧
      row.quote_currency =
        (mkYtdRow "EUR" "NOK" ⟨2024, 1, 1⟩ [23/2]).quote_currency ∧
      row.rate_date = (mkYtdRow "EUR" "NOK" ⟨2024, 1, 1⟩ [23/2]).rate_date ∧
      (mkYtdRow "EUR" "NOK" ⟨2024, 1, 1⟩ [23/2]).ytd_last_rate =
        roundTo 8 row.exchange_rate ∧
      ((mkYtdRow "EUR" "NOK" ⟨2024, 1, 1⟩ [23/2]).rate_date.month = 1 →
        (mkYtdRow "EUR" "NOK" ⟨2024, 1, 1⟩ [23/2]).rate_date.day = 1 →
        (mkYtdRow "EUR" "NOK" ⟨2024, 1, 1⟩ [23/2]).ytd_first_rate =
          roundTo 8 row.exchange_rate)) := by
  have hvalid : ∀ r ∈ [(⟨⟨2024, 1, 1⟩, "EUR", "NOK", 23/2⟩ : CrossRow)],
      ValidDate r.rate_date := by
    intro r hr
    rw [List.mem_singleton] at hr
    rw [hr]
    decide
  have huniq : ∀ r ∈ [(⟨⟨2024, 1, 1⟩, "EUR", "NOK", 23/2⟩ : CrossRow)],
      ∀ s ∈ [(⟨⟨2024, 1, 1⟩, "EUR", "NOK", 23/2⟩ : CrossRow)],
      r.base_currency = s.base_currency →
      r.quote_currency = s.quote_currency → r.rate_date = s.rate_date →
      r = s := by
    intro r hr s hs _ _ _
    rw [List.mem_singleton] at hr hs
    rw [hr, hs]
  have hmem : mkYtdRow "EUR" "NOK" ⟨2024, 1, 1⟩ [23/2] ∈
      calculate_ytd_metrics [⟨⟨2024, 1, 1⟩, "EUR", "NOK", 23/2⟩] := by
    simp only [calculate_ytd_metrics, pairKeysOf, sortByDate, groupForPair,
      ytdForGroup, ytdWindow, yearStart, List.insertionSort,
      List.orderedInsert, List.map, List.dedup]
    norm_num [List.filter, List.filterMap, List.flatMap, dateLe,
      List.mem_singleton]
  exact ⟨⟨hvalid, huniq, hmem⟩,
    (ytd_window_year_scope _ hvalid huniq _ hmem).2.2.2⟩

/-- Sample variance with the N−1 divisor, as the claim's words prescribe
(spec-side definition for comparison with the code's `numpy` default). -/
def sampleVar (l : List ℚ) : ℚ :=
  ((l.map (fun x => (x - mean l) ^ 2)).sum) / (l.length - 1)

theorem popVar_of_length_le_one {l : List ℚ} (h : l.length ≤ 1) :
    popVar l = 0 := by
  cases l with
  | nil => simp [popVar]
  | cons x t =>
    cases t with
    | nil => norm_num [popVar, mean]
    | cons y t' => simp at h

theorem roundTo_zero (n : ℕ) : roundTo n 0 = 0 := by
  simp [roundTo]

/-- C1 amended: the stored `ytd_variance` is the population variance (N
divisor, numpy's `ddof=0` default) of the window's rates rounded to 8
decimals, and `ytd_std_dev` its square root rounded to 8 decimals; both are
null exactly when that variance is zero — in particular when
`ytd_days_count ≤ 1`, but also for any window of equal rates. -/
theorem ytd_variance_population_null (df : List CrossRow) :
    ∀ R ∈ calculate_ytd_metrics df,
      (R.ytd_variance =
        if popVar (windowRates df R.base_currency R.quote_currency
            R.rate_date) = 0 then none
        else some (roundTo 8 (popVar (windowRates df R.base_currency
          R.quote_currency R.rate_date)))) ∧
      (R.ytd_std_dev =
        if popVar (windowRates df R.base_currency R.quote_currency
            R.rate_date) = 0 then none
        else some (((round (Real.sqrt (popVar (windowRates df
          R.base_currency R.quote_currency R.rate_date)) * 10 ^ 8) : ℤ) : ℝ)
          / 10 ^ 8)) ∧
      (R.ytd_variance = none ↔ popVar (windowRates df R.base_currency
        R.quote_currency R.rate_date) = 0) ∧
      (R.ytd_std_dev = none ↔ popVar (windowRates df R.base_currency
        R.quote_currency R.rate_date) = 0) ∧
      (R.ytd_days_count ≤ 1 → R.ytd_variance = none ∧
        R.ytd_std_dev = none) := by
  intro R hR
  obtain ⟨-, hReq⟩ := ytd_record_spec hR
  set rates := windowRates df R.base_currency R.quote_currency R.rate_date
    with hrates
  have hvrp : R.ytd_var_raw = popVar rates := by
    by_cases hlen : 1 < rates.length
    · conv_lhs => rw [hReq]
      rw [(mkYtdRow_fields _ _ _ _).2.2.2.2.2.2.1, if_pos hlen]
    · have h0 : popVar rates = 0 := popVar_of_length_le_one (by omega)
      conv_lhs => rw [hReq]
      rw [(mkYtdRow_fields _ _ _ _).2.2.2.2.2.2.1, if_neg hlen, h0]
  have hdays : R.ytd_days_count = rates.length := by
    conv_lhs => rw [hReq]
    exact (mkYtdRow_fields _ _ _ _).2.2.2.1
  have hvar : R.ytd_variance =
      if popVar rates = 0 then none
      else some (roundTo 8 (popVar rates)) := by
    by_cases hlen : 1 < rates.length
    · conv_lhs => rw [hReq]
      rw [(mkYtdRow_fields _ _ _ _).2.2.2.2.2.2.2.1]
      simp only [if_pos hlen]
    · have h0 : popVar rates = 0 := popVar_of_length_le_one (by omega)
      conv_lhs => rw [hReq]
      rw [(mkYtdRow_fields _ _ _ _).2.2.2.2.2.2.2.1]
      simp [if_neg hlen, h0]
  have hstd : R.ytd_std_dev =
      if popVar rates = 0 then none
      else some (((round (Real.sqrt (popVar rates) * 10 ^ 8) : ℤ) : ℝ)
        / 10 ^ 8) := by
    unfold YtdRow.ytd_std_dev
    rw [hvrp]
  refine ⟨hvar, hstd, ?_, ?_, ?_⟩
  · rw [hvar]
    by_cases h0 : popVar rates = 0 <;> simp [h0]
  · rw [hstd]
    by_cases h0 : popVar rates = 0 <;> simp [h0]
  · intro hcnt
    have h0 : popVar rates = 0 := popVar_of_length_le_one (by omega)
    rw [hvar, hstd]
    simp [h0]

theorem sortByDate_pair_2024 :
    sortByDate [⟨⟨2024, 1, 1⟩, "EUR", "NOK", 1⟩,
        ⟨⟨2024, 1, 2⟩, "EUR", "NOK", 2⟩] =
      [⟨⟨2024, 1, 1⟩, "EUR", "NOK", 1⟩, ⟨⟨2024, 1, 2⟩, "EUR", "NOK", 2⟩] := by
  simp [sortByDate, List.insertionSort, List.orderedInsert, rowDateLe, dateLe]

/-- Concrete evaluation of the YTD stage on a two-record, one-pair input. -/
theorem ytd_eval_two_records (x y : ℚ) :
    calculate_ytd_metrics [⟨⟨2024, 1, 1⟩, "EUR", "NOK", x⟩,
        ⟨⟨2024, 1, 2⟩, "EUR", "NOK", y⟩] =
      [mkYtdRow "EUR" "NOK" ⟨2024, 1, 1⟩ [x],
       mkYtdRow "EUR" "NOK" ⟨2024, 1, 2⟩ [x, y]] := by
  simp [calculate_ytd_metrics, pairKeysOf, sortByDate, groupForPair,
    ytdForGroup, ytdWindow, yearStart, List.insertionSort,
    List.orderedInsert, rowDateLe, dateLe, pairLe, List.dedup]

/-- C1 refuted as stated: on the window [1, 2] (one pair, two dates of one
year) the emitted `ytd_variance` is the population value 1/4, not the sample
variance 1/2 (N−1 divisor, rounding changes nothing) the claim prescribes;
and on the window [3, 3] the emitted `ytd_variance` is null although
`ytd_days_count = 2 > 1`. -/
theorem ytd_variance_sample_counterexample :
    (∃ R ∈ calculate_ytd_metrics [⟨⟨2024, 1, 1⟩, "EUR", "NOK", 1⟩,
        ⟨⟨2024, 1, 2⟩, "EUR", "NOK", 2⟩],
      R.ytd_days_count = 2 ∧ R.ytd_variance = some (1/4)) ∧
    roundTo 8 (sampleVar [1, 2]) = 1/2 ∧ ((1 : ℚ)/4) ≠ 1/2 ∧
    (∃ R ∈ calculate_ytd_metrics [⟨⟨2024, 1, 1⟩, "EUR", "NOK", 3⟩,
        ⟨⟨2024, 1, 2⟩, "EUR", "NOK", 3⟩],
      R.ytd_days_count = 2 ∧ R.ytd_variance = none) := by
  refine ⟨⟨mkYtdRow "EUR" "NOK" ⟨2024, 1, 2⟩ [1, 2], ?_, ?_, ?_⟩, ?_, ?_,
    ⟨mkYtdRow "EUR" "NOK" ⟨2024, 1, 2⟩ [3, 3], ?_, ?_, ?_⟩⟩
  · rw [ytd_eval_two_records 1 2]
    simp
  · rw [(mkYtdRow_fields _ _ _ _).2.2.2.1]
    rfl
  · rw [(mkYtdRow_fields _ _ _ _).2.2.2.2.2.2.2.1]
    have hp : popVar [(1 : ℚ), 2] = 1/4 := by
      norm_num [popVar, mean]
    norm_num [hp, roundTo, round_eq]
  · norm_num [sampleVar, mean, roundTo, round_eq]
  · norm_num
  · rw [ytd_eval_two_records 3 3]
    simp
  · rw [(mkYtdRow_fields _ _ _ _).2.2.2.1]
    rfl
  · rw [(mkYtdRow_fields _ _ _ _).2.2.2.2.2.2.2.1]
    have hp : popVar [(3 : ℚ), 3] = 0 := by
      norm_num [popVar, mean]
    norm_num [hp]

/-- Witness for `ytd_variance_population_null` at a one-record input. -/
theorem ytd_variance_population_null_witness :
    (mkYtdRow "EUR" "NOK" ⟨2024, 1, 1⟩ [23/2] ∈
      calculate_ytd_metrics [⟨⟨2024, 1, 1⟩, "EUR", "NOK", 23/2⟩]) ∧
    ((mkYtdRow "EUR" "NOK" ⟨2024, 1, 1⟩ [23/2]).ytd_days_count ≤ 1 →
      (mkYtdRow "EUR" "NOK" ⟨2024, 1, 1⟩ [23/2]).ytd_variance = none ∧
      (mkYtdRow "EUR" "NOK" ⟨2024, 1, 1⟩ [23/2]).ytd_std_dev = none) := by
  have hmem : mkYtdRow "EUR" "NOK" ⟨2024, 1, 1⟩ [23/2] ∈
      calculate_ytd_metrics [⟨⟨2024, 1, 1⟩, "EUR", "NOK", 23/2⟩] := by
    simp only [calculate_ytd_metrics, pairKeysOf, sortByDate, groupForPair,
      ytdForGroup, ytdWindow, yearStart, List.insertionSort,
      List.orderedInsert, List.map, List.dedup]
    norm_num [List.filter, List.filterMap, List.flatMap, dateLe,
      List.mem_singleton]
  exact ⟨hmem,
    (ytd_variance_population_null _ _ hmem).2.2.2.2⟩

/-- C5 amended: `ytd_change_pct` is the percent change from the window's
first to last rate, rounded to 4 decimal digits (the claim omits the
rounding); with first = 0 it is exactly 0, never infinite or NaN. -/
theorem ytd_change_pct_zero_guard (df : List CrossRow) :
    ∀ R ∈ calculate_ytd_metrics df,
      R.ytd_change_pct = roundTo 4
        (if (windowRates df R.base_currency R.quote_currency
            R.rate_date).headD 0 ≠ 0 then
          ((windowRates df R.base_currency R.quote_currency
              R.rate_date).getLastD 0 -
            (windowRates df R.base_currency R.quote_currency
              R.rate_date).headD 0) /
            (windowRates df R.base_currency R.quote_currency
              R.rate_date).headD 0 * 100
         else 0) ∧
      ((windowRates df R.base_currency R.quote_currency
          R.rate_date).headD 0 = 0 → R.ytd_change_pct = 0) := by
  intro R hR
  obtain ⟨-, hReq⟩ := ytd_record_spec hR
  have hfield : R.ytd_change_pct = roundTo 4
      (if (windowRates df R.base_currency R.quote_currency
          R.rate_date).headD 0 ≠ 0 then
        ((windowRates df R.base_currency R.quote_currency
            R.rate_date).getLastD 0 -
          (windowRates df R.base_currency R.quote_currency
            R.rate_date).headD 0) /
          (windowRates df R.base_currency R.quote_currency
            R.rate_date).headD 0 * 100
       else 0) := by
    conv_lhs => rw [hReq]
    exact (mkYtdRow_fields _ _ _ _).2.2.2.2.2.2.2.2
  refine ⟨hfield, fun h0 => ?_⟩
  rw [hfield, if_neg (not_not_intro h0), roundTo_zero]

/-- C5 refuted as stated: with window [3, 1] the exact percent change is
−200/3 = −66.666…, but the emitted `ytd_change_pct` is the 4-decimal
rounding −66.6667. -/
theorem ytd_change_pct_rounding_counterexample :
    ∃ R ∈ calculate_ytd_metrics [⟨⟨2024, 1, 1⟩, "EUR", "NOK", 3⟩,
        ⟨⟨2024, 1, 2⟩, "EUR", "NOK", 1⟩],
      R.rate_date = ⟨2024, 1, 2⟩ ∧
      R.ytd_change_pct = -(666667/10^4) ∧
      R.ytd_change_pct ≠ ((1 : ℚ) - 3) / 3 * 100 := by
  refine ⟨mkYtdRow "EUR" "NOK" ⟨2024, 1, 2⟩ [3, 1], ?_, ?_, ?_, ?_⟩
  · rw [ytd_eval_two_records 3 1]
    simp
  · rw [(mkYtdRow_fields _ _ _ _).1]
  · rw [(mkYtdRow_fields _ _ _ _).2.2.2.2.2.2.2.2]
    norm_num [roundTo, round_eq]
  · rw [(mkYtdRow_fields _ _ _ _).2.2.2.2.2.2.2.2]
    norm_num [roundTo, round_eq]

/-- Witness for `ytd_change_pct_zero_guard` at a one-record input. -/
theorem ytd_change_pct_zero_guard_witness :
    (mkYtdRow "EUR" "NOK" ⟨2024, 1, 1⟩ [23/2] ∈
      calculate_ytd_metrics [⟨⟨2024, 1, 1⟩, "EUR", "NOK", 23/2⟩]) ∧
    ((mkYtdRow "EUR" "NOK" ⟨2024, 1, 1⟩ [23/2]).ytd_change_pct = roundTo 4
      (if (windowRates [⟨⟨2024, 1, 1⟩, "EUR", "NOK", 23/2⟩] "EUR" "NOK"
          ⟨2024, 1, 1⟩).headD 0 ≠ 0 then
        ((windowRates [⟨⟨2024, 1, 1⟩, "EUR", "NOK", 23/2⟩] "EUR" "NOK"
            ⟨2024, 1, 1⟩).getLastD 0 -
          (windowRates [⟨⟨2024, 1, 1⟩, "EUR", "NOK", 23/2⟩] "EUR" "NOK"
            ⟨2024, 1, 1⟩).headD 0) /
          (windowRates [⟨⟨2024, 1, 1⟩, "EUR", "NOK", 23/2⟩] "EUR" "NOK"
            ⟨2024, 1, 1⟩).headD 0 * 100
       else 0) ∧
    ((windowRates [⟨⟨2024, 1, 1⟩, "EUR", "NOK", 23/2⟩] "EUR" "NOK"
        ⟨2024, 1, 1⟩).headD 0 = 0 →
      (mkYtdRow "EUR" "NOK" ⟨2024, 1, 1⟩ [23/2]).ytd_change_pct = 0)) := by
  have hmem : mkYtdRow "EUR" "NOK" ⟨2024, 1, 1⟩ [23/2] ∈
      calculate_ytd_metrics [⟨⟨2024, 1, 1⟩, "EUR", "NOK", 23/2⟩] := by
    simp only [calculate_ytd_metrics, pairKeysOf, sortByDate, groupForPair,
      ytdForGroup, ytdWindow, yearStart, List.insertionSort,
      List.orderedInsert, List.map, List.dedup]
    norm_num [List.filter, List.filterMap, List.flatMap, dateLe,
      List.mem_singleton]
  exact ⟨hmem, ytd_change_pct_zero_guard _ _ hmem⟩

/-- A CSV cell of the `exchange_rate` column as written in the input file:
numeric text, an empty cell, or non-numeric text. -/
inductive RateCell
  | num (q : ℚ)
  | missing
  | text
deriving DecidableEq, Repr

/-- A CSV cell of the `rate_date` column: an empty cell parses to NaT. -/
inductive DateCell
  | val (d : Date)
  | missing
deriving DecidableEq, Repr

structure CsvRow where
  dateCell : DateCell
  quote_currency : String
  rateCell : RateCell
deriving DecidableEq, Repr

/-- The transform stage's input file: which of the expected columns the
header carries, and the data rows. -/
structure CsvFile where
  hasDateCol : Bool
  hasRateCol : Bool
  rows : List CsvRow
deriving DecidableEq, Repr

/-- A pandas cell value at computation time: a float, the float NaN (also
standing for ±inf, which no claim distinguishes), or a string. -/
inductive PyVal
  | num (q : ℚ)
  | nan
  | str
deriving DecidableEq, Repr

/-- Column-level parsing by `read_csv`: when any cell of the rate column is
non-numeric text pandas leaves every non-missing cell a string; missing
cells are NaN in either case. -/
def parseRate (strCol : Bool) : RateCell → PyVal
  | RateCell.num q => if strCol then PyVal.str else PyVal.num q
  | RateCell.missing => PyVal.nan
  | RateCell.text => PyVal.str

/-- Python division on pandas cell values: any string operand raises
TypeError; NaN propagates; float division by zero yields a non-finite
float, not an exception. -/
def pyDiv : PyVal → PyVal → Except String PyVal
  | PyVal.str, _ => Except.error "TypeError"
  | _, PyVal.str => Except.error "TypeError"
  | PyVal.nan, _ => Except.ok PyVal.nan
  | _, PyVal.nan => Except.ok PyVal.nan
  | PyVal.num a, PyVal.num b =>
      if b = 0 then Except.ok PyVal.nan else Except.ok (PyVal.num (a / b))

/-- Rounding `round(x, 8)` on a float: NaN stays NaN. -/
def roundP : PyVal → PyVal
  | PyVal.num q => PyVal.num (roundTo 8 q)
  | v => v

/-- One emitted cross-pair row in the pandas-semantics model. -/
structure CrossRowP where
  rate_date : Date
  base_currency : String
  quote_currency : String
  exchange_rate : PyVal
deriving DecidableEq, Repr

/-- The date of a row, `none` for NaT. -/
def rowDate? : CsvRow → Option Date
  | ⟨DateCell.val d, _, _⟩ => some d
  | ⟨DateCell.missing, _, _⟩ => none

/-- The grouping `groupby('rate_date')` drops NaT rows: distinct parseable dates,
ascending. -/
def datesOfP (rows : List CsvRow) : List Date :=
  ((rows.filterMap rowDate?).dedup).insertionSort dateLe

def dateGroupP (rows : List CsvRow) (d : Date) : List CsvRow :=
  rows.filter (fun r => rowDate? r = some d)

/-- The per-date rate table in the pandas-semantics model. -/
def rates_dictP (strCol : Bool) (g : List CsvRow) (c : String) :
    Option PyVal :=
  ((g.filter (fun r => r.quote_currency = c)).getLast?).elim
    (if c = "EUR" then some (PyVal.num 1) else none)
    (fun r => some (parseRate strCol r.rateCell))

/-- One iteration of the pair double loop: the division may raise. -/
def pairStepP (strCol : Bool) (d : Date) (g : List CsvRow)
    (base quote : String) (rows : List CrossRowP) :
    Except String (List CrossRowP) :=
  if base ≠ quote then
    ((rates_dictP strCol g base).bind (fun rb =>
      (rates_dictP strCol g quote).map (fun rq => (rb, rq)))).elim
      (Except.ok rows)
      (fun p => (pyDiv p.2 p.1).map
        (fun v => rows ++ [⟨d, base, quote, roundP v⟩]))
  else Except.ok rows

/-- The pair double loop for one date group, aborting at the first raising
division, as the Python loop does. -/
def crossPairsForDateP (strCol : Bool) (d : Date) (g : List CsvRow) :
    Except String (List CrossRowP) :=
  CURRENCIES.foldl (fun acc base =>
    acc.bind (fun rows =>
      CURRENCIES.foldl (fun acc2 quote =>
        acc2.bind (fun rows2 => pairStepP strCol d g base quote rows2))
        (Except.ok rows)))
    (Except.ok [])

/-- The function `calculate_cross_pairs` in the pandas-semantics model.  A missing rate
column raises KeyError at the first row access of a date group; after the
loops, the statistics line `df_cross['base_currency']` raises KeyError on
an empty result frame. -/
def calculate_cross_pairsP (file : CsvFile) :
    Except String (List CrossRowP) :=
  if ¬ file.hasRateCol ∧ (∃ r ∈ file.rows, (rowDate? r).isSome) then
    Except.error "KeyError: exchange_rate"
  else
    ((datesOfP file.rows).foldl (fun acc d =>
      acc.bind (fun rows =>
        (crossPairsForDateP (file.rows.any (fun r => r.rateCell = RateCell.text))
          d (dateGroupP file.rows d)).map (fun l => rows ++ l)))
      (Except.ok [])).bind (fun pairs =>
        if pairs = [] then Except.error "KeyError: base_currency"
        else Except.ok pairs)

/-- The YTD stage on the model's cross output: on float data (possibly NaN)
its arithmetic is total — mean/var/min/max raise nothing and the percent
change is zero-guarded — so for the error-handling claims only the emitted
record keys, one per cross row, are modelled. -/
def ytdKeysP (pairs : List CrossRowP) : List (Date × String × String) :=
  pairs.map (fun r => (r.rate_date, r.base_currency, r.quote_currency))

/-- The audit-table insert of `log_execution`: raises when the database is
unavailable. -/
def dbInsert (fails : Bool) : Except String Unit :=
  if fails then Except.error "OperationalError" else Except.ok ()

/-- The helper `log_execution` of `transform.py` and `load.py`: the insert and commit
run inside `try/except Exception`, and any failure is demoted to a warning;
the function never raises to its caller. -/
def log_execution (insert : Except String Unit) : Except String Unit :=
  match insert with
  | Except.ok _ => Except.ok ()
  | Except.error _ => Except.ok ()

/-- The entry point `transform.main` in the pandas-semantics model: the exit code and the
outputs written (`none` when the stage aborted before any save).
`auditFails` makes every audit insert raise; `log_execution` swallows it.
If `log_execution` could surface an error, it would propagate to `main`'s
exception handler and flip the exit code — the match keeps that dependency
visible. -/
def transform_main (auditFails : Bool) (file : CsvFile) :
    ℕ × Option (List CrossRowP × List (Date × String × String)) :=
  match log_execution (dbInsert auditFails) with
  | Except.error _ => (1, none)
  | Except.ok _ =>
    if ¬ file.hasDateCol then (1, none)
    else
      match calculate_cross_pairsP file with
      | Except.error _ => (1, none)
      | Except.ok pairs => (0, some (pairs, ytdKeysP pairs))

theorem pyDiv_ok {a b : PyVal} (ha : a ≠ PyVal.str) (hb : b ≠ PyVal.str) :
    ∃ v, pyDiv a b = Except.ok v := by
  cases a with
  | str => exact absurd rfl ha
  | nan =>
    cases b with
    | str => exact absurd rfl hb
    | nan => exact ⟨_, rfl⟩
    | num q => exact ⟨_, rfl⟩
  | num q =>
    cases b with
    | str => exact absurd rfl hb
    | nan => exact ⟨_, rfl⟩
    | num p =>
      by_cases h : p = 0
      · exact ⟨PyVal.nan, by simp [pyDiv, h]⟩
      · exact ⟨PyVal.num (q / p), by simp [pyDiv, h]⟩

theorem foldl_ok_of_preserves {α β : Type*}
    (g : Except String β → α → Except String β)
    (hok : ∀ (x : β) (a : α), ∃ y, g (Except.ok x) a = Except.ok y) :
    ∀ (l : List α) (b : β), ∃ y, l.foldl g (Except.ok b) = Except.ok y
  | [], b => ⟨b, rfl⟩
  | a :: l, b => by
    rcases hok b a with ⟨y, hy⟩
    rw [List.foldl_cons, hy]
    exact foldl_ok_of_preserves g hok l y

/-- With no non-numeric text in the rate column, every table value is a
float (possibly NaN), never a string. -/
theorem rates_dictP_no_str {rows : List CsvRow}
    (hnotext : ∀ r ∈ rows, r.rateCell ≠ RateCell.text) :
    ∀ (d : Date) (c : String) (v : PyVal),
      rates_dictP false (dateGroupP rows d) c = some v → v ≠ PyVal.str := by
  intro d c v hv
  unfold rates_dictP at hv
  cases hl : ((dateGroupP rows d).filter
      (fun r => r.quote_currency = c)).getLast? with
  | none =>
    rw [hl] at hv
    simp only [Option.elim_none] at hv
    by_cases hc : c = "EUR"
    · rw [if_pos hc] at hv
      cases hv
      simp
    · rw [if_neg hc] at hv
      cases hv
  | some r =>
    rw [hl] at hv
    simp only [Option.elim_some, Option.some.injEq] at hv
    have hr : r ∈ rows := by
      have h1 : r ∈ (dateGroupP rows d).filter
          (fun r => r.quote_currency = c) :=
        List.mem_of_mem_getLast? (by simp [hl])
      have h2 := (List.mem_filter.mp h1).1
      exact (List.mem_filter.mp h2).1
    have hcell := hnotext r hr
    rw [← hv]
    cases hcase : r.rateCell with
    | num q => simp [parseRate]
    | missing => simp [parseRate]
    | text => exact absurd hcase hcell

/-- C9: a failing audit insert is swallowed by `log_execution`, which never
raises, and consequently an audit failure can never change the transform
step's exit code or outputs. -/
theorem audit_failure_swallowed :
    (∀ insert : Except String Unit, log_execution insert = Except.ok ()) ∧
    (∀ (file : CsvFile) (b1 b2 : Bool),
      transform_main b1 file = transform_main b2 file) := by
  constructor
  · intro insert
    cases insert <;> rfl
  · intro file b1 b2
    unfold transform_main log_execution dbInsert
    cases b1 <;> cases b2 <;> simp

/-- C8 refuted as stated: a malformed row with a missing `exchange_rate`
value is not fatal — the NaN propagates into a successfully produced
cross-pair row (and onward into the YTD output) and main exits 0; a row
with a missing date is silently dropped, also with exit 0. -/
theorem malformed_row_not_fatal_counterexample :
    transform_main false
      { hasDateCol := true, hasRateCol := true,
        rows := [⟨DateCell.val ⟨2024, 1, 1⟩, "NOK", RateCell.num 2⟩,
                 ⟨DateCell.val ⟨2024, 1, 1⟩, "SEK", RateCell.missing⟩] }
      = (0, some
          ([⟨⟨2024, 1, 1⟩, "NOK", "EUR", roundP (PyVal.num (1/2))⟩,
            ⟨⟨2024, 1, 1⟩, "NOK", "SEK", PyVal.nan⟩,
            ⟨⟨2024, 1, 1⟩, "EUR", "NOK", roundP (PyVal.num (2/1))⟩,
            ⟨⟨2024, 1, 1⟩, "EUR", "SEK", PyVal.nan⟩,
            ⟨⟨2024, 1, 1⟩, "SEK", "NOK", PyVal.nan⟩,
            ⟨⟨2024, 1, 1⟩, "SEK", "EUR", PyVal.nan⟩],
           [(⟨2024, 1, 1⟩, "NOK", "EUR"), (⟨2024, 1, 1⟩, "NOK", "SEK"),
            (⟨2024, 1, 1⟩, "EUR", "NOK"), (⟨2024, 1, 1⟩, "EUR", "SEK"),
            (⟨2024, 1, 1⟩, "SEK", "NOK"), (⟨2024, 1, 1⟩, "SEK", "EUR")])) ∧
    transform_main false
      { hasDateCol := true, hasRateCol := true,
        rows := [⟨DateCell.val ⟨2024, 1, 1⟩, "NOK", RateCell.num 2⟩,
                 ⟨DateCell.missing, "SEK", RateCell.num 1⟩] }
      = (0, some
          ([⟨⟨2024, 1, 1⟩, "NOK", "EUR", roundP (PyVal.num (1/2))⟩,
            ⟨⟨2024, 1, 1⟩, "EUR", "NOK", roundP (PyVal.num (2/1))⟩],
           [(⟨2024, 1, 1⟩, "NOK", "EUR"), (⟨2024, 1, 1⟩, "EUR", "NOK")])) := by
  constructor <;> rfl

/-- C8 amended: a missing expected column is fatal (exit 1, no output), as
is non-numeric rate text that reaches a pair division — but a file with no
such text never raises a TypeError: it either succeeds (exit 0 with both
outputs, NaN propagating for missing rate values, NaT rows dropped) or
aborts on the empty-result statistics line; malformed *values* alone never
abort a run that produces at least one pair. -/
theorem transform_malformed_input_behavior :
    (∀ file : CsvFile, ¬ file.hasDateCol →
      transform_main false file = (1, none)) ∧
    (∀ file : CsvFile, file.hasDateCol → ¬ file.hasRateCol →
      (∃ r ∈ file.rows, (rowDate? r).isSome) →
      transform_main false file = (1, none)) ∧
    (∀ file : CsvFile, (∀ r ∈ file.rows, r.rateCell ≠ RateCell.text) →
      ((transform_main false file).1 = 0 ∧
        (transform_main false file).2.isSome) ∨
      transform_main false file = (1, none)) ∧
    transform_main false
      { hasDateCol := true, hasRateCol := true,
        rows := [⟨DateCell.val ⟨2024, 1, 1⟩, "NOK", RateCell.text⟩] }
      = (1, none) := by
  refine ⟨?_, ?_, ?_, by rfl⟩
  · intro file h
    unfold transform_main log_execution dbInsert
    simp [h]
  · intro file hdate hrate hrow
    unfold transform_main log_execution dbInsert
    simp only [if_neg (by simp : ¬ (false = true))]
    rw [if_neg (by simpa using hdate)]
    unfold calculate_cross_pairsP
    rw [if_pos ⟨hrate, hrow⟩]
  · intro file hnotext
    cases hdate : file.hasDateCol with
    | false =>
      right
      unfold transform_main log_execution dbInsert
      simp [hdate]
    | true =>
      have hstr : (file.rows.any (fun r => r.rateCell = RateCell.text))
          = false := by
        rw [List.any_eq_false]
        intro r hr
        simpa using hnotext r hr
      by_cases hkey : ¬ file.hasRateCol ∧
          (∃ r ∈ file.rows, (rowDate? r).isSome)
      · right
        unfold transform_main log_execution dbInsert
        simp only [if_neg (by simp : ¬ (false = true))]
        rw [if_neg (by simp [hdate])]
        unfold calculate_cross_pairsP
        rw [if_pos hkey]
      · have hdictv := rates_dictP_no_str hnotext
        have hstep : ∀ (d : Date) (base quote : String)
            (rows : List CrossRowP), ∃ rows',
            pairStepP false d (dateGroupP file.rows d) base quote rows =
              Except.ok rows' := by
          intro d base quote rows
          unfold pairStepP
          by_cases hne : base ≠ quote
          · rw [if_pos hne]
            cases hb : rates_dictP false (dateGroupP file.rows d) base with
            | none => exact ⟨rows, by simp⟩
            | some rb =>
              cases hq : rates_dictP false (dateGroupP file.rows d) quote with
              | none => exact ⟨rows, by simp⟩
              | some rq =>
                obtain ⟨v, hv⟩ := pyDiv_ok (hdictv d quote rq hq)
                  (hdictv d base rb hb)
                refine ⟨rows ++ [⟨d, base, quote, roundP v⟩], ?_⟩
                simp [hv]
                rfl
          · rw [if_neg hne]
            exact ⟨rows, rfl⟩
        have hinner : ∀ (d : Date) (base : String) (rows : List CrossRowP),
            ∃ rows', CURRENCIES.foldl (fun acc2 quote =>
              acc2.bind (fun rows2 =>
                pairStepP false d (dateGroupP file.rows d) base quote rows2))
              (Except.ok rows) = Except.ok rows' := by
          intro d base rows
          exact foldl_ok_of_preserves _
            (fun x q => hstep d base q x) CURRENCIES rows
        have hcross : ∀ d : Date, ∃ res,
            crossPairsForDateP false d (dateGroupP file.rows d) =
              Except.ok res := by
          intro d
          unfold crossPairsForDateP
          exact foldl_ok_of_preserves _
            (fun x base => hinner d base x) CURRENCIES []
        have hdatefold : ∃ pairs, (datesOfP file.rows).foldl (fun acc d =>
            acc.bind (fun rows =>
              (crossPairsForDateP false d (dateGroupP file.rows d)).map
                (fun l => rows ++ l))) (Except.ok []) = Except.ok pairs := by
          refine foldl_ok_of_preserves _ (fun rows d => ?_)
            (datesOfP file.rows) []
          obtain ⟨res, hres⟩ := hcross d
          exact ⟨rows ++ res, by show Except.map _ _ = _; rw [hres]; rfl⟩
        obtain ⟨pairs, hpairs⟩ := hdatefold
        unfold transform_main log_execution dbInsert
        simp only [if_neg (by simp : ¬ (false = true))]
        rw [if_neg (by simp [hdate])]
        unfold calculate_cross_pairsP
        rw [if_neg hkey, hstr, hpairs]
        by_cases hnil : pairs = []
        · right
          rw [hnil]
          rfl
        · left
          have hbindok : (Except.ok pairs).bind (fun pairs =>
              if pairs = [] then
                (Except.error "KeyError: base_currency" :
                  Except String (List CrossRowP))
              else Except.ok pairs) = Except.ok pairs := by
            show (if pairs = [] then
                (Except.error "KeyError: base_currency" :
                  Except String (List CrossRowP))
              else Except.ok pairs) = Except.ok pairs
            rw [if_neg hnil]
          rw [hbindok]
          exact ⟨rfl, rfl⟩

/-- Witness for `transform_malformed_input_behavior`: a file missing the
`rate_date` column aborts with exit 1 and no outputs. -/
theorem transform_malformed_input_behavior_witness :
    (¬ (CsvFile.mk false true
      [⟨DateCell.val ⟨2024, 1, 1⟩, "NOK", RateCell.num 2⟩]).hasDateCol) ∧
    transform_main false (CsvFile.mk false true
      [⟨DateCell.val ⟨2024, 1, 1⟩, "NOK", RateCell.num 2⟩]) = (1, none) :=
  ⟨by decide, transform_malformed_input_behavior.1 _ (by decide)⟩

example :
    calculate_cross_pairs [⟨⟨2024, 1, 1⟩, "NOK", 23/2⟩, ⟨⟨2024, 1, 1⟩, "SEK", 56/5⟩] =
      [⟨⟨2024, 1, 1⟩, "NOK", "EUR", roundTo 8 (2/23)⟩,
       ⟨⟨2024, 1, 1⟩, "NOK", "SEK", roundTo 8 ((56/5) / (23/2))⟩,
       ⟨⟨2024, 1, 1⟩, "EUR", "NOK", 23/2⟩,
       ⟨⟨2024, 1, 1⟩, "EUR", "SEK", 56/5⟩,
       ⟨⟨2024, 1, 1⟩, "SEK", "NOK", roundTo 8 ((23/2) / (56/5))⟩,
       ⟨⟨2024, 1, 1⟩, "SEK", "EUR", roundTo 8 (5/56)⟩] := by
  simp [calculate_cross_pairs, datesOf, dateGroup, crossPairsForDate, CURRENCIES,
    rates_dict, List.insertionSort, List.orderedInsert, dateLe, roundTo]
  norm_num [round_eq]
